import Mathlib

/-!
# Verification of the ViSP python binding generator (header model, sorter, emitter, orchestrator)

Shallow embedding of `modules/python/generator/header.py` and
`modules/python/generator/visp_python_bindgen/generator.py`.

Conventions:
* Python dicts used as string-keyed mappings are modelled as association lists
  (`Mapping`); `mset` prepends, `mget` returns the first (i.e. most recent) binding,
  which matches dict overwrite semantics.
* Collaborator modules that are not part of the analysed sources
  (`utils.py`, `methods.py`, `enum_binding.py`, `submodule.py`) are modelled from the
  specification; each such definition carries a doc comment starting with
  `Modelled from the spec:`.
* Generated C++ text is represented structurally (`Emission`) rather than as raw
  strings: the claims under study only depend on which registration statements are
  emitted, never on their textual rendering.
-/

/- ## Parsed declaration trees (cxxheaderparser `NamespaceScope` / `ClassScope`) -/

/-- One segment of a parsed typename (`types.NameSpecifier` / `types.AnonymousName`).
`anonymous` is true for `AnonymousName` segments. -/
structure Segment where
  name : String
  anonymous : Bool
deriving DecidableEq

/-- A `using A = B;` alias as parsed; the aliased type is kept as its source-level
name, which is what `get_type` resolves through the mapping. -/
structure UsingAlias where
  aliasName : String
  type : String
deriving DecidableEq

/-- A `typedef` declaration. -/
structure TypedefDecl where
  name : String
deriving DecidableEq

/-- One enumerator of an enum declaration. -/
structure EnumValue where
  name : String
deriving DecidableEq

/-- An enum declaration; `segments` is the typename of the enum
(an anonymous enum has an anonymous segment). -/
structure EnumDecl where
  segments : List Segment
  values : List EnumValue
deriving DecidableEq

/-- The slice of a parsed method (`types.Method`) used by the generator:
name, dispatch/constness flags, parameter types (as source names), the names of its
template parameters when templated, and its return type. -/
structure ClassMethod where
  name : String
  isConstructor : Bool
  pureVirtual : Bool
  isStatic : Bool
  isConst : Bool
  parameters : List String
  template : Option (List String)
  returnType : String
deriving DecidableEq

/-- A parsed class scope: its typename segments, template parameter names (if
templated), public base class names, methods, and nested declarations.
Mirrors the fields of `cxxheaderparser.simple.ClassScope` that the generator reads. -/
inductive ClassScope where
  | mk : List Segment → Option (List String) → List String → List ClassMethod →
         List UsingAlias → List TypedefDecl → List EnumDecl → List ClassScope → ClassScope

def ClassScope.segments : ClassScope → List Segment
  | .mk s _ _ _ _ _ _ _ => s

def ClassScope.template : ClassScope → Option (List String)
  | .mk _ t _ _ _ _ _ _ => t

def ClassScope.bases : ClassScope → List String
  | .mk _ _ b _ _ _ _ _ => b

def ClassScope.methods : ClassScope → List ClassMethod
  | .mk _ _ _ m _ _ _ _ => m

def ClassScope.using_alias : ClassScope → List UsingAlias
  | .mk _ _ _ _ u _ _ _ => u

def ClassScope.typedefs : ClassScope → List TypedefDecl
  | .mk _ _ _ _ _ t _ _ => t

def ClassScope.enums : ClassScope → List EnumDecl
  | .mk _ _ _ _ _ _ e _ => e

def ClassScope.classes : ClassScope → List ClassScope
  | .mk _ _ _ _ _ _ _ c => c

/-- A parsed namespace scope (`cxxheaderparser.simple.NamespaceScope`):
aliases, typedefs, enums, classes and named nested namespaces. -/
inductive NamespaceScope where
  | mk : List UsingAlias → List TypedefDecl → List EnumDecl → List ClassScope →
         List (String × NamespaceScope) → NamespaceScope

def NamespaceScope.using_alias : NamespaceScope → List UsingAlias
  | .mk u _ _ _ _ => u

def NamespaceScope.typedefs : NamespaceScope → List TypedefDecl
  | .mk _ t _ _ _ => t

def NamespaceScope.enums : NamespaceScope → List EnumDecl
  | .mk _ _ e _ _ => e

def NamespaceScope.classes : NamespaceScope → List ClassScope
  | .mk _ _ _ c _ => c

def NamespaceScope.namespaces : NamespaceScope → List (String × NamespaceScope)
  | .mk _ _ _ _ n => n

/-- `'::'.join(seg.name for seg in segments)` — used at namespace level (line 93 of
`header.py`), where no anonymous filtering is applied. -/
def joinSegments (segs : List Segment) : String :=
  String.intercalate "::" (segs.map (·.name))

/-- `'::'.join(seg.name for seg in segments if not isinstance(seg, AnonymousName))` —
used for classes nested inside a class (line 110 of `header.py`). -/
def joinSegmentsNonAnonymous (segs : List Segment) : String :=
  String.intercalate "::" ((segs.filter (fun s => !s.anonymous)).map (·.name))

/-- Modelled from the spec: `utils.name_is_anonymous` decides whether a parsed
typename denotes an anonymous declaration ("no stable name to key on"); true when
some segment is an `AnonymousName`. -/
def name_is_anonymous (segs : List Segment) : Bool :=
  segs.any (·.anonymous)

/- ## The environment mapping (Python dict, short name → qualified name) -/

/-- The symbol-resolution table: association list with most-recent-first lookup,
modelling a Python dict under key assignment. -/
abbrev Mapping := List (String × String)

/-- `mapping[k] = v` (dict assignment: later writes shadow earlier ones). -/
def mset (m : Mapping) (k v : String) : Mapping := (k, v) :: m

/-- `mapping.get(k)`: the most recently written binding of `k`, if any. -/
def mget (m : Mapping) (k : String) : Option String :=
  (m.find? (fun p => p.1 == k)).map (·.2)

/-- Modelled from the spec: `utils.get_type` resolves a source-level type name to its
fully qualified name through the environment mapping, falling back to the name
itself when unmapped. -/
def get_type (t : String) (m : Mapping) : String :=
  (mget m t).getD t

/- ## `HeaderFile` and the dependency sorter (`sort_headers`) -/

/-- One header file, after preprocessing: its identity (source path), the parsed
declaration tree (`header_repr.namespace`), the declared type names (`contains`) and
the public `vp`-prefixed base class names it requires (`depends`). -/
structure HeaderFile where
  id : Nat
  namespaceScope : NamespaceScope
  contains : List String
  depends : List String

/-- The admission predicate of `sort_headers.add_level`: on the first level
(`len(result) == 0`) a header is admitted when it has no dependencies; on later
levels when *any* of its dependencies is in the previous level's dependency set. -/
def include_in_result_fn (resultIsEmpty : Bool) (dependencies : List String)
    (h : HeaderFile) : Bool :=
  if resultIsEmpty then h.depends.isEmpty
  else h.depends.any (fun x => dependencies.contains x)

/-- `sort_headers.add_level` (header.py lines 44-66), with the recursion made
structural on a fuel argument. The fuel-exhaustion branch is unreachable: every
recursive call strictly shrinks `remainder`, and the top-level call supplies
`remainder.length` as fuel. The `new_remainder == remainder` stall test of the
source is rendered as a length comparison, which is equivalent because
`new_remainder` is a filtered sublist of `remainder`
(see `new_remainder_eq_iff_length_eq`); this branch is the degradation path: the
leftover headers are appended unchanged after a warning. -/
def add_level : Nat → Bool → List HeaderFile → List String → List HeaderFile
  | _, _, [], _ => []
  | 0, _, remainder, _ => remainder
  | fuel + 1, resultIsEmpty, remainder, dependencies =>
    let admitted := remainder.filter (include_in_result_fn resultIsEmpty dependencies)
    let new_remainder :=
      remainder.filter (fun h => !(include_in_result_fn resultIsEmpty dependencies h))
    if new_remainder.length = remainder.length then
      remainder
    else
      admitted ++ add_level fuel false new_remainder
        (admitted.flatMap (fun h => h.contains))

/-- `sort_headers` (header.py lines 43-69). -/
def sort_headers (headers : List HeaderFile) : List HeaderFile :=
  add_level headers.length true headers []

/-- `X` depends on `Y`: some base-class name required by `X` is declared by `Y`. -/
def DependsOnHeader (x y : HeaderFile) : Prop := ∃ t ∈ x.depends, t ∈ y.contains

instance (x y : HeaderFile) : Decidable (DependsOnHeader x y) := by
  unfold DependsOnHeader; infer_instance

/-- The contains/depends relation on a finite header set is acyclic iff it admits a
rank function strictly decreasing along dependency edges (a topological numbering);
this is the standard finite characterisation of acyclicity. -/
def AcyclicHeaders (hs : List HeaderFile) : Prop :=
  ∃ rank : HeaderFile → Nat, ∀ x ∈ hs, ∀ y ∈ hs, DependsOnHeader x y → rank y < rank x

/-- Every dependency name of every header is declared by some header of the set. -/
def ResolvableHeaders (hs : List HeaderFile) : Prop :=
  ∀ h ∈ hs, ∀ t ∈ h.depends, ∃ h2 ∈ hs, t ∈ h2.contains

/-- Ordering check, strong form (the claim's property): walking the output, every
header must have *all* of its dependency names among the contained names of
earlier headers. -/
def respects_all_deps : List String → List HeaderFile → Bool
  | _, [] => true
  | seen, h :: t =>
    h.depends.all (fun d => seen.contains d) && respects_all_deps (seen ++ h.contains) t

/-- Ordering check, weak form: every header with a nonempty dependency list has
*at least one* dependency among the contained names of earlier headers. -/
def respects_any_dep : List String → List HeaderFile → Bool
  | _, [] => true
  | seen, h :: t =>
    (h.depends.isEmpty || h.depends.any (fun d => seen.contains d)) &&
      respects_any_dep (seen ++ h.contains) t

/-- Claim C1 as stated: on acyclic inputs the output ordering satisfies the strong
dependency-ordering property. -/
def claimC1_prop (hs : List HeaderFile) : Prop :=
  AcyclicHeaders hs → respects_all_deps [] (sort_headers hs) = true

/- ## Lemmas about the sorter -/

/-- Justification for the length-based rendering of the source's
`new_remainder == remainder` test: a filtered list equals the original iff it has
the same length. -/
theorem new_remainder_eq_iff_length_eq (p : HeaderFile → Bool) (l : List HeaderFile) :
    (l.filter p).length = l.length ↔ l.filter p = l :=
  ⟨fun h => (List.filter_sublist l).eq_of_length h, fun h => by rw [h]⟩

/-- Unfolding of `add_level` on a nonempty remainder at positive fuel. -/
theorem add_level_cons (fuel : Nat) (resultIsEmpty : Bool) (h : HeaderFile)
    (t : List HeaderFile) (dependencies : List String) :
    add_level (fuel + 1) resultIsEmpty (h :: t) dependencies =
      (if ((h :: t).filter
            (fun x => !(include_in_result_fn resultIsEmpty dependencies x))).length =
          (h :: t).length then
        h :: t
      else
        ((h :: t).filter (include_in_result_fn resultIsEmpty dependencies)) ++
          add_level fuel false
            ((h :: t).filter (fun x => !(include_in_result_fn resultIsEmpty dependencies x)))
            (((h :: t).filter (include_in_result_fn resultIsEmpty dependencies)).flatMap
              (fun x => x.contains))) := rfl

/-- A minimum-image element of a nonempty list. -/
theorem list_exists_min_image (f : HeaderFile → Nat) (l : List HeaderFile) (h : l ≠ []) :
    ∃ a ∈ l, ∀ b ∈ l, f a ≤ f b := by
  induction l with
  | nil => simp at h
  | cons x t ih =>
    cases t with
    | nil => exact ⟨x, by simp, by simp⟩
    | cons y u =>
      obtain ⟨a, ha, hmin⟩ := ih (by simp)
      by_cases hxa : f x ≤ f a
      · refine ⟨x, by simp, ?_⟩
        intro b hb
        rcases List.mem_cons.mp hb with rfl | hb
        · exact le_refl _
        · exact le_trans hxa (hmin b hb)
      · refine ⟨a, List.mem_cons_of_mem _ ha, ?_⟩
        intro b hb
        rcases List.mem_cons.mp hb with rfl | hb
        · omega
        · exact hmin b hb

/-- `add_level` returns a permutation of its remainder, at every fuel value and in
every branch (including the degradation branch). -/
theorem add_level_perm (fuel : Nat) (resultIsEmpty : Bool) (remainder : List HeaderFile)
    (deps : List String) :
    List.Perm (add_level fuel resultIsEmpty remainder deps) remainder := by
  induction fuel generalizing resultIsEmpty remainder deps with
  | zero => cases remainder <;> simp [add_level]
  | succ n ih =>
    cases remainder with
    | nil => simp [add_level]
    | cons h t =>
      rw [add_level_cons]
      split
      · exact List.Perm.refl _
      · exact List.Perm.trans ((ih _ _ _).append_left _) (List.filter_append_perm _ _)

/-- If no header of a nonempty set has an empty dependency list, every dependency
name is provided inside the set, and a strict rank decreases along dependency
edges, we get a contradiction (the set would need a dependency-minimal member with
its provider even lower). -/
theorem no_total_stall (rank : HeaderFile → Nat) (R : List HeaderFile) (hne : R ≠ [])
    (hdep : ∀ x ∈ R, x.depends ≠ [])
    (hres : ∀ x ∈ R, ∀ t ∈ x.depends, ∃ y ∈ R, t ∈ y.contains)
    (hrank : ∀ x ∈ R, ∀ y ∈ R, DependsOnHeader x y → rank y < rank x) : False := by
  obtain ⟨x, hx, hmin⟩ := list_exists_min_image rank R hne
  obtain ⟨t, ht⟩ := List.exists_mem_of_ne_nil _ (hdep x hx)
  obtain ⟨y, hy, hty⟩ := hres x hx t ht
  have h1 := hrank x hx y hy ⟨t, ht, hty⟩
  have h2 := hmin y hy
  omega

/-- `respects_any_dep` over an append splits into the two halves, the second
walked with the first half's contained names added to `seen`. -/
theorem respects_any_dep_append (seen : List String) (l1 l2 : List HeaderFile) :
    respects_any_dep seen (l1 ++ l2) =
      (respects_any_dep seen l1 &&
        respects_any_dep (seen ++ l1.flatMap (fun x => x.contains)) l2) := by
  induction l1 generalizing seen with
  | nil => simp [respects_any_dep]
  | cons h t ih =>
    simp only [List.cons_append, respects_any_dep, List.append_eq, ih, List.flatMap_cons,
      List.append_assoc, Bool.and_assoc]

/-- A list whose members each have either no dependencies or a dependency already in
`seen` passes the weak ordering check. -/
theorem respects_any_dep_of_each (seen : List String) (l : List HeaderFile)
    (hsat : ∀ x ∈ l, x.depends = [] ∨ ∃ d ∈ x.depends, d ∈ seen) :
    respects_any_dep seen l = true := by
  induction l generalizing seen with
  | nil => rfl
  | cons h t ih =>
    have hh := hsat h (List.mem_cons_self h t)
    have h1 : (h.depends.isEmpty || h.depends.any (fun d => seen.contains d)) = true := by
      rcases hh with he | ⟨d, hd, hds⟩
      · simp [he]
      · refine Bool.or_eq_true_iff.mpr (Or.inr ?_)
        exact List.any_eq_true.mpr ⟨d, hd, by simpa using hds⟩
    refine Bool.and_eq_true_iff.mpr ⟨h1, ih _ ?_⟩
    intro x hx
    rcases hsat x (List.mem_cons_of_mem _ hx) with he | ⟨d, hd, hds⟩
    · exact Or.inl he
    · exact Or.inr ⟨d, hd, List.mem_append_left _ hds⟩

/-- Under a per-header bound of at most one dependency, the weak ordering check
implies the strong one. -/
theorem respects_all_of_any (seen : List String) (l : List HeaderFile)
    (hone : ∀ x ∈ l, x.depends.length ≤ 1) :
    respects_any_dep seen l = true → respects_all_deps seen l = true := by
  induction l generalizing seen with
  | nil => intro; rfl
  | cons h t ih =>
    intro hany
    obtain ⟨h1, h2⟩ := Bool.and_eq_true_iff.mp hany
    refine Bool.and_eq_true_iff.mpr ⟨?_, ih _ (fun x hx => hone x (List.mem_cons_of_mem _ hx)) h2⟩
    have hlen := hone h (List.mem_cons_self h t)
    cases hd : h.depends with
    | nil => simp [hd]
    | cons d rest =>
      cases rest with
      | nil =>
        rcases Bool.or_eq_true_iff.mp h1 with he | ha
        · rw [hd] at he; simp at he
        · obtain ⟨e, he, hes⟩ := List.any_eq_true.mp ha
          rw [hd] at he
          simp only [List.mem_singleton] at he
          subst he
          simp only [List.all_cons, List.all_nil, Bool.and_true]
          exact hes
      | cons d2 rest2 => rw [hd] at hlen; simp at hlen

/-- `include_in_result_fn` after the first level. -/
theorem include_next (deps : List String) (x : HeaderFile) :
    include_in_result_fn false deps x = x.depends.any (fun d => deps.contains d) := rfl

/-- `include_in_result_fn` at the first level. -/
theorem include_first (deps : List String) (x : HeaderFile) :
    include_in_result_fn true deps x = x.depends.isEmpty := rfl

/-- Invariant induction for the recursive levels of `add_level`: provided
(1) the previous level's dependency set is contained in the seen names,
(2) every remaining header still has dependencies,
(3) a remaining header's dependency that is already seen lies in the previous
    level's dependency set,
(4) every remaining dependency name is either seen or provided inside the
    remainder, and
(5) a rank strictly decreases along dependency edges inside the remainder,
every header that `add_level` emits has (when it has dependencies at all) at least
one dependency among the previously seen names. -/
theorem add_level_respects_any (rank : HeaderFile → Nat) :
    ∀ (fuel : Nat) (remainder : List HeaderFile) (deps seen : List String),
    remainder.length ≤ fuel →
    (∀ d ∈ deps, d ∈ seen) →
    (∀ x ∈ remainder, x.depends ≠ []) →
    (∀ x ∈ remainder, ∀ d ∈ x.depends, d ∈ seen → d ∈ deps) →
    (∀ x ∈ remainder, ∀ d ∈ x.depends, d ∈ seen ∨ ∃ y ∈ remainder, d ∈ y.contains) →
    (∀ x ∈ remainder, ∀ y ∈ remainder, DependsOnHeader x y → rank y < rank x) →
    respects_any_dep seen (add_level fuel false remainder deps) = true := by
  intro fuel
  induction fuel with
  | zero =>
    intro remainder deps seen hfuel _ _ _ _ _
    have hrem : remainder = [] := List.length_eq_zero.mp (Nat.le_zero.mp hfuel)
    subst hrem
    rfl
  | succ n ih =>
    intro remainder deps seen hfuel hds hne hI3 hI4 hrank
    cases remainder with
    | nil => rfl
    | cons h t =>
      rw [add_level_cons]
      split
      next hstall =>
        exfalso
        have heq : (h :: t).filter (fun x => !(include_in_result_fn false deps x)) = h :: t :=
          (new_remainder_eq_iff_length_eq _ _).mp hstall
        have hall : ∀ x ∈ h :: t, include_in_result_fn false deps x = false := by
          intro x hx
          have := (List.filter_eq_self.mp heq) x hx
          simpa using this
        refine no_total_stall rank (h :: t) (by simp) hne ?_ hrank
        intro x hx d hd
        rcases hI4 x hx d hd with hseen | hy
        · exfalso
          have hdep := hI3 x hx d hd hseen
          have hcontra : include_in_result_fn false deps x = true := by
            rw [include_next]
            exact List.any_eq_true.mpr ⟨d, hd, by simpa using hdep⟩
          rw [hall x hx] at hcontra
          exact Bool.false_ne_true hcontra
        · exact hy
      next hnostall =>
        have hlt : ((h :: t).filter (fun x => !(include_in_result_fn false deps x))).length <
            (h :: t).length :=
          lt_of_le_of_ne (List.length_filter_le _ _) hnostall
        rw [respects_any_dep_append]
        refine Bool.and_eq_true_iff.mpr ⟨?_, ?_⟩
        · refine respects_any_dep_of_each seen _ ?_
          intro x hx
          obtain ⟨hxR, hinclx⟩ := List.mem_filter.mp hx
          right
          obtain ⟨d, hd, hdd⟩ := List.any_eq_true.mp (by rw [include_next] at hinclx; exact hinclx)
          exact ⟨d, hd, hds d (by simpa using hdd)⟩
        · apply ih
          · have hlen : (h :: t).length ≤ n + 1 := hfuel
            omega
          · intro d hd
            exact List.mem_append_right _ hd
          · intro x hx
            exact hne x (List.mem_filter.mp hx).1
          · intro x hx d hd hdseen
            rcases List.mem_append.mp hdseen with hdseen' | hdnew
            · exfalso
              have hdep := hI3 x (List.mem_filter.mp hx).1 d hd hdseen'
              have hinclx := (List.mem_filter.mp hx).2
              have hfalse : include_in_result_fn false deps x = false := by
                simpa using hinclx
              have htrue : include_in_result_fn false deps x = true := by
                rw [include_next]
                exact List.any_eq_true.mpr ⟨d, hd, by simpa using hdep⟩
              rw [hfalse] at htrue
              exact Bool.false_ne_true htrue
            · exact hdnew
          · intro x hx d hd
            rcases hI4 x (List.mem_filter.mp hx).1 d hd with hseen | ⟨y, hy, hdy⟩
            · exact Or.inl (List.mem_append_left _ hseen)
            · by_cases hincly : include_in_result_fn false deps y = true
              · refine Or.inl (List.mem_append_right _ ?_)
                exact List.mem_flatMap.mpr ⟨y, List.mem_filter.mpr ⟨hy, hincly⟩, hdy⟩
              · refine Or.inr ⟨y, List.mem_filter.mpr ⟨hy, ?_⟩, hdy⟩
                simp [hincly]
          · intro x hx y hy hxy
            exact hrank x (List.mem_filter.mp hx).1 y (List.mem_filter.mp hy).1 hxy

instance (hs : List HeaderFile) : Decidable (ResolvableHeaders hs) := by
  unfold ResolvableHeaders; infer_instance

/-- C2: `sort_headers` terminates on every input (it is a total function of its
input, including cyclic dependency relations) and returns a permutation of the full
input list: no header is dropped and none is duplicated. The degradation branch
appends the unresolved remainder verbatim, preserving its original relative order. -/
theorem sort_headers_is_permutation (headers : List HeaderFile) :
    List.Perm (sort_headers headers) headers :=
  add_level_perm headers.length true headers []

/-- C1 (amended): on an acyclic input whose every dependency name is declared by
some header of the set, every header in `sort_headers`' output with a nonempty
dependency list has *at least one* of its dependency names declared by an earlier
header; if moreover every header lists at most one dependency, every dependency
name is declared by an earlier header (the claim's strong ordering property). -/
theorem sort_headers_dependency_ordering (hs : List HeaderFile)
    (hacyc : AcyclicHeaders hs) (hres : ResolvableHeaders hs) :
    respects_any_dep [] (sort_headers hs) = true ∧
    ((∀ h ∈ hs, h.depends.length ≤ 1) → respects_all_deps [] (sort_headers hs) = true) := by
  have hmain : respects_any_dep [] (sort_headers hs) = true := by
    obtain ⟨rank, hrank⟩ := hacyc
    cases hs with
    | nil => rfl
    | cons h t =>
      show respects_any_dep [] (add_level (t.length + 1) true (h :: t) []) = true
      rw [add_level_cons]
      split
      next hstall =>
        exfalso
        have heq : (h :: t).filter (fun x => !(include_in_result_fn true [] x)) = h :: t :=
          (new_remainder_eq_iff_length_eq _ _).mp hstall
        have hall : ∀ x ∈ h :: t, include_in_result_fn true [] x = false := by
          intro x hx
          simpa using (List.filter_eq_self.mp heq) x hx
        have hne : ∀ x ∈ h :: t, x.depends ≠ [] := by
          intro x hx
          have hfx := hall x hx
          rw [include_first] at hfx
          simpa using hfx
        exact no_total_stall rank (h :: t) (by simp) hne
          (fun x hx d hd => hres x hx d hd) hrank
      next hnostall =>
        rw [respects_any_dep_append]
        refine Bool.and_eq_true_iff.mpr ⟨?_, ?_⟩
        · refine respects_any_dep_of_each _ _ ?_
          intro x hx
          left
          have hfx := (List.mem_filter.mp hx).2
          rw [include_first] at hfx
          simpa using hfx
        · apply add_level_respects_any rank
          · have hlt := lt_of_le_of_ne
              (List.length_filter_le (fun x => !(include_in_result_fn true [] x)) (h :: t))
              hnostall
            simp only [List.length_cons] at hlt
            omega
          · intro d hd
            exact List.mem_append_right _ hd
          · intro x hx
            have hfx := (List.mem_filter.mp hx).2
            rw [include_first] at hfx
            simp only [Bool.not_eq_true'] at hfx  
            simpa using hfx
          · intro x hx d hd hdseen
            rcases List.mem_append.mp hdseen with habs | hnew
            · exact absurd habs (List.not_mem_nil d)
            · exact hnew
          · intro x hx d hd
            obtain ⟨y, hy, hdy⟩ := hres x (List.mem_filter.mp hx).1 d hd
            by_cases hincly : include_in_result_fn true [] y = true
            · refine Or.inl (List.mem_append_right _ ?_)
              exact List.mem_flatMap.mpr ⟨y, List.mem_filter.mpr ⟨hy, hincly⟩, hdy⟩
            · refine Or.inr ⟨y, List.mem_filter.mpr ⟨hy, ?_⟩, hdy⟩
              simp [hincly]
          · intro x hx y hy hxy
            exact hrank x (List.mem_filter.mp hx).1 y (List.mem_filter.mp hy).1 hxy
  refine ⟨hmain, fun hone => respects_all_of_any _ _ ?_ hmain⟩
  intro x hx
  exact hone x ((add_level_perm _ _ _ _).mem_iff.mp hx)

/-- The empty namespace scope (placeholder parse tree for concrete sorter inputs). -/
def emptyNamespace : NamespaceScope := .mk [] [] [] [] []

def headerA : HeaderFile := ⟨0, emptyNamespace, ["T"], []⟩
def headerB : HeaderFile := ⟨1, emptyNamespace, ["U"], ["T", "V"]⟩
def headerC : HeaderFile := ⟨2, emptyNamespace, ["V"], ["T"]⟩

/-- C1 counterexample: the input `[headerA, headerB, headerC]` has the acyclic
dependency relation `headerB → headerA`, `headerB → headerC`, `headerC → headerA`,
yet `sort_headers` returns `[headerA, headerB, headerC]`, placing `headerB` before
`headerC` although `headerB` lists `headerC`'s contained name `V` as a dependency:
a header is admitted as soon as *any* (not every) of its dependencies is satisfied,
so the claimed strong ordering property fails. -/
theorem claimC1_counterexample : ¬ claimC1_prop [headerA, headerB, headerC] := by
  intro hclaim
  have hacyc : AcyclicHeaders [headerA, headerB, headerC] :=
    ⟨fun h => if h.id = 0 then 0 else if h.id = 2 then 1 else 2, by decide⟩
  exact absurd (hclaim hacyc) (by decide)

def headerW0 : HeaderFile := ⟨0, emptyNamespace, ["T"], []⟩
def headerW1 : HeaderFile := ⟨1, emptyNamespace, ["U"], ["T"]⟩

/-- Witness for `sort_headers_dependency_ordering` at a concrete acyclic,
resolvable, single-dependency input. -/
theorem sort_headers_dependency_ordering_witness :
    respects_any_dep [] (sort_headers [headerW0, headerW1]) = true ∧
    respects_all_deps [] (sort_headers [headerW0, headerW1]) = true := by
  have h := sort_headers_dependency_ordering [headerW0, headerW1]
    ⟨fun h => h.id, by decide⟩ (by decide)
  exact ⟨h.1, h.2 (by decide)⟩

/- ## The environment builder (`HeaderEnvironment`, header.py lines 71-113) -/

/-- The alias writes of `build_naive_mapping`:
`mapping[alias.alias] = get_type(alias.type, {}, mapping)` for each alias in order.
Note the stored value resolves the *aliased type* through the mapping built so far;
it is not the scope-qualified alias name. -/
def write_using_aliases : List UsingAlias → Mapping → Mapping
  | [], m => m
  | a :: rest, m => write_using_aliases rest (mset m a.aliasName (get_type a.type m))

/-- The typedef writes: `mapping[typedef.name] = scope + typedef.name`. -/
def write_typedefs : String → List TypedefDecl → Mapping → Mapping
  | _, [], m => m
  | scope, t :: rest, m => write_typedefs scope rest (mset m t.name (scope ++ t.name))

/-- The enum writes: for each *named* enum,
`mapping['::'.join(segments)] = scope + '::'.join(segments)`; anonymous enums are
skipped. -/
def write_enums : String → List EnumDecl → Mapping → Mapping
  | _, [], m => m
  | scope, e :: rest, m =>
    if name_is_anonymous e.segments then write_enums scope rest m
    else
      write_enums scope rest
        (mset m (joinSegments e.segments) (scope ++ joinSegments e.segments))

mutual
/-- `build_naive_mapping` on a `ClassScope` (header.py lines 99-112): aliases,
typedefs, named enums, then nested classes, threading the mutated dict through.
(`mapping.update(self.build_naive_mapping(cls, mapping=mapping, ...))` updates the
dict with itself, so it is exactly the sequential threading modelled here.) -/
def build_naive_mapping_class (c : ClassScope) (m : Mapping) (scope : String) : Mapping :=
  match c with
  | .mk _ _ _ _ aliases tds enums classes =>
    build_naive_mapping_class_list classes
      (write_enums scope enums (write_typedefs scope tds (write_using_aliases aliases m)))
      scope
  termination_by structural c

/-- The nested-class loop of the `ClassScope` branch: the key joins the
*non-anonymous* segments (line 110), the value prefixes the current scope, and the
recursion descends with the extended scope. -/
def build_naive_mapping_class_list (cs : List ClassScope) (m : Mapping) (scope : String) :
    Mapping :=
  match cs with
  | [] => m
  | c :: rest =>
    build_naive_mapping_class_list rest
      (build_naive_mapping_class c
        (mset m (joinSegmentsNonAnonymous c.segments)
          (scope ++ joinSegmentsNonAnonymous c.segments))
        (scope ++ joinSegmentsNonAnonymous c.segments ++ "::"))
      scope
  termination_by structural cs
end

/-- The class loop of the `NamespaceScope` branch (lines 92-95): identical to the
nested-class loop except that the key joins *all* segments (line 93 applies no
anonymous filtering). -/
def build_naive_mapping_ns_classes : List ClassScope → Mapping → String → Mapping
  | [], m, _ => m
  | c :: rest, m, scope =>
    build_naive_mapping_ns_classes rest
      (build_naive_mapping_class c
        (mset m (joinSegments c.segments) (scope ++ joinSegments c.segments))
        (scope ++ joinSegments c.segments ++ "::"))
      scope

mutual
/-- `HeaderEnvironment.build_naive_mapping` on a `NamespaceScope` (header.py lines
81-97): aliases, typedefs, named enums, classes, then nested namespaces. -/
def build_naive_mapping (ns : NamespaceScope) (m : Mapping) (scope : String) : Mapping :=
  match ns with
  | .mk aliases tds enums classes namespaces =>
    build_naive_mapping_ns_list namespaces
      (build_naive_mapping_ns_classes classes
        (write_enums scope enums (write_typedefs scope tds (write_using_aliases aliases m)))
        scope)
      scope
  termination_by structural ns

/-- The nested-namespace loop (lines 96-97), descending with `scope + name + '::'`. -/
def build_naive_mapping_ns_list (l : List (String × NamespaceScope)) (m : Mapping)
    (scope : String) : Mapping :=
  match l with
  | [] => m
  | (name, ns) :: rest =>
    build_naive_mapping_ns_list rest (build_naive_mapping ns m (scope ++ name ++ "::")) scope
  termination_by structural l
end

/-- The enum representation produced by the enum-resolution collaborator. -/
structure EnumRepr where
  name : String
  values : List EnumValue
deriving DecidableEq

/-- Modelled from the spec: `enum_binding.resolve_enums_and_typedefs` resolves the
*named* enums of the header's top-level namespace, qualifying each enum's name
through the environment mapping; anonymous enums yield no representation. -/
def resolve_enums_and_typedefs (ns : NamespaceScope) (m : Mapping) : List EnumRepr :=
  ns.enums.filterMap (fun e =>
    if name_is_anonymous e.segments then none
    else some ⟨get_type (joinSegments e.segments) m, e.values⟩)

/-- The enum-value writes of `HeaderEnvironment.__init__` (lines 76-78) for one
resolved enum: `self.mapping[value.name] = enum_repr.name + '::' + value.name` —
the *key* is the bare value name, the *value* is the qualified form. -/
def write_enum_values_one : String → List EnumValue → Mapping → Mapping
  | _, [], m => m
  | ername, v :: rest, m =>
    write_enum_values_one ername rest (mset m v.name (ername ++ "::" ++ v.name))

/-- The enum-value writes for all resolved enums, in order. -/
def write_enum_values : List EnumRepr → Mapping → Mapping
  | [], m => m
  | er :: rest, m => write_enum_values rest (write_enum_values_one er.name er.values m)

/-- `HeaderEnvironment.__init__` (header.py lines 72-78). The `mapping={}` default
argument of `build_naive_mapping` is one dict created at function-definition time;
`__init__` calls `build_naive_mapping` *without* a mapping argument, so it reads and
mutates that shared dict. `sharedDefault` is the shared dict's contents when the
constructor runs; since `self.mapping` aliases the same object, the shared dict's
contents after the call equal the returned mapping. -/
def headerEnvironment_init (data : NamespaceScope) (sharedDefault : Mapping) : Mapping :=
  write_enum_values
    (resolve_enums_and_typedefs data (build_naive_mapping data sharedDefault ""))
    (build_naive_mapping data sharedDefault "")

/- ## Spec-side description of the environment contents

`collect_env_entries` lists, straight from the spec's words, "every alias, typedef,
enum, and class name declared at any nesting level" together with its enclosing
scope prefix, in declaration order (the write order of `build_naive_mapping`).
Anonymous enums are excluded ("no stable name to key on"). -/

/-- One declaration reachable in a parse tree: its enclosing scope prefix, its
unqualified name (the mapping key), and whether it is a using-alias (whose mapping
value resolves the aliased type rather than qualifying the alias name). -/
structure EnvEntry where
  scope : String
  key : String
  isAliasEntry : Bool
deriving DecidableEq

mutual
/-- All declarations of a class scope, in the write order of
`build_naive_mapping_class`. -/
def collect_env_entries_class (scope : String) (c : ClassScope) : List EnvEntry :=
  match c with
  | .mk _ _ _ _ aliases tds enums classes =>
    aliases.map (fun a => ⟨scope, a.aliasName, true⟩)
      ++ tds.map (fun t => ⟨scope, t.name, false⟩)
      ++ enums.filterMap (fun e =>
          if name_is_anonymous e.segments then none
          else some ⟨scope, joinSegments e.segments, false⟩)
      ++ collect_env_entries_class_list scope classes
  termination_by structural c

/-- All declarations of a list of nested classes (class-scope naming). -/
def collect_env_entries_class_list (scope : String) (cs : List ClassScope) : List EnvEntry :=
  match cs with
  | [] => []
  | c :: rest =>
    (⟨scope, joinSegmentsNonAnonymous c.segments, false⟩
        :: collect_env_entries_class (scope ++ joinSegmentsNonAnonymous c.segments ++ "::") c)
      ++ collect_env_entries_class_list scope rest
  termination_by structural cs
end

/-- All declarations of a list of namespace-level classes (namespace-scope naming). -/
def collect_env_entries_ns_classes (scope : String) : List ClassScope → List EnvEntry
  | [] => []
  | c :: rest =>
    (⟨scope, joinSegments c.segments, false⟩
        :: collect_env_entries_class (scope ++ joinSegments c.segments ++ "::") c)
      ++ collect_env_entries_ns_classes scope rest

mutual
/-- All declarations of a namespace scope, in the write order of
`build_naive_mapping`. -/
def collect_env_entries (scope : String) (ns : NamespaceScope) : List EnvEntry :=
  match ns with
  | .mk aliases tds enums classes namespaces =>
    aliases.map (fun a => ⟨scope, a.aliasName, true⟩)
      ++ tds.map (fun t => ⟨scope, t.name, false⟩)
      ++ enums.filterMap (fun e =>
          if name_is_anonymous e.segments then none
          else some ⟨scope, joinSegments e.segments, false⟩)
      ++ collect_env_entries_ns_classes scope classes
      ++ collect_env_entries_ns_list scope namespaces
  termination_by structural ns

/-- All declarations of a list of nested namespaces. -/
def collect_env_entries_ns_list (scope : String) (l : List (String × NamespaceScope)) :
    List EnvEntry :=
  match l with
  | [] => []
  | (name, ns) :: rest =>
    collect_env_entries (scope ++ name ++ "::") ns ++ collect_env_entries_ns_list scope rest
  termination_by structural l
end

/- ## Association-list lemmas for `mget` -/

/-- A key is bound iff it occurs among the stored keys. -/
theorem mget_isSome_iff (m : Mapping) (k : String) :
    (mget m k).isSome ↔ k ∈ m.map Prod.fst := by
  induction m with
  | nil => simp [mget]
  | cons p rest ih =>
    by_cases hp : p.1 = k
    · simp [mget, List.find?, hp]
    · simp only [mget, List.map_cons, List.mem_cons]
      rw [List.find?_cons_of_neg]
      · simpa [mget] using fun h => absurd h.symm hp
      · simp [hp]

/-- Binding a key in the prefix of an association list wins over the suffix; if the
prefix binds each key at most once, membership determines the lookup. -/
theorem mget_append_unique (new m : Mapping) (k v : String)
    (hmem : (k, v) ∈ new) (hnodup : (new.map Prod.fst).Nodup) :
    mget (new ++ m) k = some v := by
  induction new with
  | nil => simp at hmem
  | cons p rest ih =>
    rcases List.mem_cons.mp hmem with rfl | hmem'
    · simp [mget, List.find?]
    · simp only [List.map_cons, List.nodup_cons] at hnodup
      have hp1 : p.1 ≠ k := by
        intro h
        exact hnodup.1 (h ▸ (List.mem_map.mpr ⟨(k, v), hmem', rfl⟩))
      simp only [List.cons_append]
      rw [show mget (p :: (rest ++ m)) k = mget (rest ++ m) k from ?_]
      · exact ih hmem' hnodup.2
      · simp only [mget]
        rw [List.find?_cons_of_neg]
        simp [hp1]

/-- A key bound in `m` stays bound after prepending more bindings. -/
theorem mget_mono (m2 m : Mapping) (k : String) (h : (mget m k).isSome) :
    (mget (m2 ++ m) k).isSome := by
  rw [mget_isSome_iff] at h ⊢
  simpa using Or.inr h

/- ## Write-layer decompositions -/

/-- Alias writes prepend one binding per alias (keys in reverse write order);
the values depend on the evolving mapping and are not constrained here. -/
theorem write_using_aliases_spec (l : List UsingAlias) :
    ∀ m : Mapping, ∃ new, write_using_aliases l m = new ++ m ∧
      new.map Prod.fst = (l.map (·.aliasName)).reverse := by
  induction l with
  | nil => exact fun m => ⟨[], rfl, rfl⟩
  | cons a rest ih =>
    intro m
    obtain ⟨new, heq, hkeys⟩ := ih (mset m a.aliasName (get_type a.type m))
    refine ⟨new ++ [(a.aliasName, get_type a.type m)], ?_, ?_⟩
    · rw [write_using_aliases, heq, List.append_assoc]
      rfl
    · simp [hkeys]

/-- Typedef writes in closed form. -/
theorem write_typedefs_spec (scope : String) (l : List TypedefDecl) (m : Mapping) :
    write_typedefs scope l m =
      (l.map (fun t => (t.name, scope ++ t.name))).reverse ++ m := by
  induction l generalizing m with
  | nil => rfl
  | cons t rest ih =>
    rw [write_typedefs, ih]
    simp [mset, List.append_assoc]

/-- Enum writes in closed form (anonymous enums write nothing). -/
theorem write_enums_spec (scope : String) (l : List EnumDecl) (m : Mapping) :
    write_enums scope l m =
      (l.filterMap (fun e =>
        if name_is_anonymous e.segments then none
        else some (joinSegments e.segments, scope ++ joinSegments e.segments))).reverse
        ++ m := by
  induction l generalizing m with
  | nil => rfl
  | cons e rest ih =>
    rw [write_enums]
    by_cases he : name_is_anonymous e.segments
    · simp only [he, if_true, List.filterMap_cons, ih]
    · simp only [he, if_false, List.filterMap_cons, ih]
      simp [mset, List.append_assoc]

/-- Enum-value writes of one resolved enum, in closed form: keyed by the bare
value name, valued by the qualified form. -/
theorem write_enum_values_one_spec (ername : String) (vs : List EnumValue) (m : Mapping) :
    write_enum_values_one ername vs m =
      (vs.map (fun v => (v.name, ername ++ "::" ++ v.name))).reverse ++ m := by
  induction vs generalizing m with
  | nil => rfl
  | cons v rest ih =>
    rw [write_enum_values_one, ih]
    simp [mset, List.append_assoc]

/-- Enum-value writes of all resolved enums, in closed form. -/
theorem write_enum_values_spec (ers : List EnumRepr) (m : Mapping) :
    write_enum_values ers m =
      (ers.flatMap (fun er => er.values.map (fun v =>
        (v.name, er.name ++ "::" ++ v.name)))).reverse ++ m := by
  induction ers generalizing m with
  | nil => rfl
  | cons er rest ih =>
    rw [write_enum_values, ih, write_enum_values_one_spec]
    simp [List.append_assoc]

mutual
/-- Decomposition of `build_naive_mapping_class`: it prepends exactly one binding
per collected declaration (keys in reverse write order), and every non-alias
declaration's binding maps its unqualified name to its scope-qualified name. -/
theorem build_naive_mapping_class_spec (c : ClassScope) :
    ∀ (m : Mapping) (scope : String), ∃ new,
      build_naive_mapping_class c m scope = new ++ m ∧
      new.map Prod.fst = ((collect_env_entries_class scope c).map (·.key)).reverse ∧
      ∀ e ∈ collect_env_entries_class scope c, e.isAliasEntry = false →
        (e.key, e.scope ++ e.key) ∈ new := by
  cases c with
  | mk segs tmpl bases methods aliases tds enums classes =>
    intro m scope
    obtain ⟨n1, h1, hk1⟩ := write_using_aliases_spec aliases m
    obtain ⟨n4, h4, hk4, hm4⟩ :=
      build_naive_mapping_class_list_spec classes
        (write_enums scope enums (write_typedefs scope tds (write_using_aliases aliases m)))
        scope
    refine ⟨n4 ++ ((enums.filterMap (fun e =>
        if name_is_anonymous e.segments then none
        else some (joinSegments e.segments, scope ++ joinSegments e.segments))).reverse
      ++ ((tds.map (fun t => (t.name, scope ++ t.name))).reverse ++ n1)), ?_, ?_, ?_⟩
    · rw [build_naive_mapping_class, h4, write_enums_spec, write_typedefs_spec, h1]
      simp [List.append_assoc]
    · rw [collect_env_entries_class]
      simp only [List.map_append, List.map_reverse, List.map_map, List.reverse_append,
        List.map_filterMap, hk4, hk1]
      simp [Function.comp_def, apply_ite, List.append_assoc]
    · intro e he hna
      rw [collect_env_entries_class] at he
      simp only [List.mem_append] at he
      rcases he with ((ha | ht) | hen) | hsub
      · obtain ⟨a, _, rfl⟩ := List.mem_map.mp ha
        simp at hna
      · obtain ⟨t, htm, rfl⟩ := List.mem_map.mp ht
        refine List.mem_append.mpr (Or.inr (List.mem_append.mpr (Or.inr
          (List.mem_append.mpr (Or.inl ?_)))))
        simp only [List.mem_reverse, List.mem_map]
        exact ⟨t, htm, rfl⟩
      · obtain ⟨ed, hedm, hed⟩ := List.mem_filterMap.mp hen
        by_cases hanon : name_is_anonymous ed.segments
        · rw [if_pos hanon] at hed; exact absurd hed (by simp)
        · rw [if_neg hanon] at hed
          obtain rfl := Option.some.inj hed
          refine List.mem_append.mpr (Or.inr (List.mem_append.mpr (Or.inl ?_)))
          simp only [List.mem_reverse, List.mem_filterMap]
          exact ⟨ed, hedm, by rw [if_neg hanon]⟩
      · exact List.mem_append.mpr (Or.inl (hm4 e hsub hna))
  termination_by structural c

/-- Decomposition of `build_naive_mapping_class_list` (same shape). -/
theorem build_naive_mapping_class_list_spec (cs : List ClassScope) :
    ∀ (m : Mapping) (scope : String), ∃ new,
      build_naive_mapping_class_list cs m scope = new ++ m ∧
      new.map Prod.fst = ((collect_env_entries_class_list scope cs).map (·.key)).reverse ∧
      ∀ e ∈ collect_env_entries_class_list scope cs, e.isAliasEntry = false →
        (e.key, e.scope ++ e.key) ∈ new := by
  cases cs with
  | nil => exact fun m scope => ⟨[], rfl, rfl, by simp [collect_env_entries_class_list]⟩
  | cons c rest =>
    intro m scope
    obtain ⟨nc, hc, hkc, hmc⟩ :=
      build_naive_mapping_class_spec c
        (mset m (joinSegmentsNonAnonymous c.segments)
          (scope ++ joinSegmentsNonAnonymous c.segments))
        (scope ++ joinSegmentsNonAnonymous c.segments ++ "::")
    obtain ⟨nr, hr, hkr, hmr⟩ :=
      build_naive_mapping_class_list_spec rest
        (build_naive_mapping_class c
          (mset m (joinSegmentsNonAnonymous c.segments)
            (scope ++ joinSegmentsNonAnonymous c.segments))
          (scope ++ joinSegmentsNonAnonymous c.segments ++ "::"))
        scope
    refine ⟨nr ++ (nc ++ [(joinSegmentsNonAnonymous c.segments,
        scope ++ joinSegmentsNonAnonymous c.segments)]), ?_, ?_, ?_⟩
    · rw [build_naive_mapping_class_list, hr, hc]
      simp [mset, List.append_assoc]
    · rw [collect_env_entries_class_list]
      simp only [List.map_append, List.reverse_append, List.map_cons, List.reverse_cons, hkr, hkc]
      simp [List.append_assoc]
    · intro e he hna
      rw [collect_env_entries_class_list] at he
      rcases List.mem_append.mp he with hfirst | hrest
      · rcases List.mem_cons.mp hfirst with rfl | hin
        · refine List.mem_append.mpr (Or.inr (List.mem_append.mpr (Or.inr ?_)))
          simp
        · exact List.mem_append.mpr (Or.inr (List.mem_append.mpr (Or.inl (hmc e hin hna))))
      · exact List.mem_append.mpr (Or.inl (hmr e hrest hna))
  termination_by structural cs
end

/-- Decomposition of `build_naive_mapping_ns_classes` (namespace-level class loop). -/
theorem build_naive_mapping_ns_classes_spec (cs : List ClassScope) :
    ∀ (m : Mapping) (scope : String), ∃ new,
      build_naive_mapping_ns_classes cs m scope = new ++ m ∧
      new.map Prod.fst = ((collect_env_entries_ns_classes scope cs).map (·.key)).reverse ∧
      ∀ e ∈ collect_env_entries_ns_classes scope cs, e.isAliasEntry = false →
        (e.key, e.scope ++ e.key) ∈ new := by
  induction cs with
  | nil => exact fun m scope => ⟨[], rfl, rfl, by simp [collect_env_entries_ns_classes]⟩
  | cons c rest ih =>
    intro m scope
    obtain ⟨nc, hc, hkc, hmc⟩ :=
      build_naive_mapping_class_spec c
        (mset m (joinSegments c.segments) (scope ++ joinSegments c.segments))
        (scope ++ joinSegments c.segments ++ "::")
    obtain ⟨nr, hr, hkr, hmr⟩ :=
      ih (build_naive_mapping_class c
          (mset m (joinSegments c.segments) (scope ++ joinSegments c.segments))
          (scope ++ joinSegments c.segments ++ "::"))
        scope
    refine ⟨nr ++ (nc ++ [(joinSegments c.segments, scope ++ joinSegments c.segments)]),
      ?_, ?_, ?_⟩
    · rw [build_naive_mapping_ns_classes, hr, hc]
      simp [mset, List.append_assoc]
    · rw [collect_env_entries_ns_classes]
      simp only [List.map_append, List.reverse_append, List.map_cons, List.reverse_cons, hkr, hkc]
      simp [List.append_assoc]
    · intro e he hna
      rw [collect_env_entries_ns_classes] at he
      rcases List.mem_append.mp he with hfirst | hrest
      · rcases List.mem_cons.mp hfirst with rfl | hin
        · refine List.mem_append.mpr (Or.inr (List.mem_append.mpr (Or.inr ?_)))
          simp
        · exact List.mem_append.mpr (Or.inr (List.mem_append.mpr (Or.inl (hmc e hin hna))))
      · exact List.mem_append.mpr (Or.inl (hmr e hrest hna))

mutual
/-- Decomposition of `build_naive_mapping` on a namespace scope: the environment
extends the incoming mapping with one binding per collected declaration, and every
non-alias declaration's binding maps its unqualified name to its scope-qualified
name. -/
theorem build_naive_mapping_spec (ns : NamespaceScope) :
    ∀ (m : Mapping) (scope : String), ∃ new,
      build_naive_mapping ns m scope = new ++ m ∧
      new.map Prod.fst = ((collect_env_entries scope ns).map (·.key)).reverse ∧
      ∀ e ∈ collect_env_entries scope ns, e.isAliasEntry = false →
        (e.key, e.scope ++ e.key) ∈ new := by
  cases ns with
  | mk aliases tds enums classes namespaces =>
    intro m scope
    obtain ⟨n1, h1, hk1⟩ := write_using_aliases_spec aliases m
    obtain ⟨n4, h4, hk4, hm4⟩ :=
      build_naive_mapping_ns_classes_spec classes
        (write_enums scope enums (write_typedefs scope tds (write_using_aliases aliases m)))
        scope
    obtain ⟨n5, h5, hk5, hm5⟩ :=
      build_naive_mapping_ns_list_spec namespaces
        (build_naive_mapping_ns_classes classes
          (write_enums scope enums (write_typedefs scope tds (write_using_aliases aliases m)))
          scope)
        scope
    refine ⟨n5 ++ (n4 ++ ((enums.filterMap (fun e =>
        if name_is_anonymous e.segments then none
        else some (joinSegments e.segments, scope ++ joinSegments e.segments))).reverse
      ++ ((tds.map (fun t => (t.name, scope ++ t.name))).reverse ++ n1))), ?_, ?_, ?_⟩
    · rw [build_naive_mapping, h5, h4, write_enums_spec, write_typedefs_spec, h1]
      simp [List.append_assoc]
    · rw [collect_env_entries]
      simp only [List.map_append, List.map_reverse, List.map_map, List.reverse_append,
        List.map_filterMap, hk5, hk4, hk1]
      simp [Function.comp_def, apply_ite, List.append_assoc]
    · intro e he hna
      rw [collect_env_entries] at he
      simp only [List.mem_append] at he
      rcases he with (((ha | ht) | hen) | hcls) | hns
      · obtain ⟨a, _, rfl⟩ := List.mem_map.mp ha
        simp at hna
      · obtain ⟨t, htm, rfl⟩ := List.mem_map.mp ht
        refine List.mem_append.mpr (Or.inr (List.mem_append.mpr (Or.inr
          (List.mem_append.mpr (Or.inr (List.mem_append.mpr (Or.inl ?_)))))))
        simp only [List.mem_reverse, List.mem_map]
        exact ⟨t, htm, rfl⟩
      · obtain ⟨ed, hedm, hed⟩ := List.mem_filterMap.mp hen
        by_cases hanon : name_is_anonymous ed.segments
        · rw [if_pos hanon] at hed; exact absurd hed (by simp)
        · rw [if_neg hanon] at hed
          obtain rfl := Option.some.inj hed
          refine List.mem_append.mpr (Or.inr (List.mem_append.mpr (Or.inr
            (List.mem_append.mpr (Or.inl ?_)))))
          simp only [List.mem_reverse, List.mem_filterMap]
          exact ⟨ed, hedm, by rw [if_neg hanon]⟩
      · exact List.mem_append.mpr (Or.inr (List.mem_append.mpr (Or.inl (hm4 e hcls hna))))
      · exact List.mem_append.mpr (Or.inl (hm5 e hns hna))
  termination_by structural ns

/-- Decomposition of `build_naive_mapping_ns_list` (nested-namespace loop). -/
theorem build_naive_mapping_ns_list_spec (l : List (String × NamespaceScope)) :
    ∀ (m : Mapping) (scope : String), ∃ new,
      build_naive_mapping_ns_list l m scope = new ++ m ∧
      new.map Prod.fst = ((collect_env_entries_ns_list scope l).map (·.key)).reverse ∧
      ∀ e ∈ collect_env_entries_ns_list scope l, e.isAliasEntry = false →
        (e.key, e.scope ++ e.key) ∈ new := by
  cases l with
  | nil => exact fun m scope => ⟨[], rfl, rfl, by simp [collect_env_entries_ns_list]⟩
  | cons p rest =>
    intro m scope
    obtain ⟨nn, hn, hkn, hmn⟩ := build_naive_mapping_spec p.2 m (scope ++ p.1 ++ "::")
    obtain ⟨nr, hr, hkr, hmr⟩ :=
      build_naive_mapping_ns_list_spec rest
        (build_naive_mapping p.2 m (scope ++ p.1 ++ "::")) scope
    refine ⟨nr ++ nn, ?_, ?_, ?_⟩
    · rw [show build_naive_mapping_ns_list (p :: rest) m scope =
          build_naive_mapping_ns_list rest
            (build_naive_mapping p.2 m (scope ++ p.1 ++ "::")) scope from ?_,
        hr, hn, List.append_assoc]
      cases p
      rw [build_naive_mapping_ns_list]
    · rw [show collect_env_entries_ns_list scope (p :: rest) =
          collect_env_entries (scope ++ p.1 ++ "::") p.2 ++
            collect_env_entries_ns_list scope rest from ?_]
      · simp only [List.map_append, List.reverse_append, hkr, hkn]
      · cases p
        rw [collect_env_entries_ns_list]
    · intro e he hna
      rw [show collect_env_entries_ns_list scope (p :: rest) =
          collect_env_entries (scope ++ p.1 ++ "::") p.2 ++
            collect_env_entries_ns_list scope rest from ?_] at he
      · rcases List.mem_append.mp he with hfirst | hrest
        · exact List.mem_append.mpr (Or.inr (hmn e hfirst hna))
        · exact List.mem_append.mpr (Or.inl (hmr e hrest hna))
      · cases p
        rw [collect_env_entries_ns_list]
  termination_by structural l
end

/-- Claim C6 as stated: the built environment maps *every* collected declaration —
typedefs, using-aliases, named enums, and (nested) classes — from its unqualified
name to its scope-qualified name. -/
def claimC6_prop (data : NamespaceScope) : Prop :=
  ∀ e ∈ collect_env_entries "" data,
    mget (build_naive_mapping data [] "") e.key = some (e.scope ++ e.key)

instance (data : NamespaceScope) : Decidable (claimC6_prop data) := by
  unfold claimC6_prop; infer_instance

def aliasOnlyNamespace : NamespaceScope := .mk [⟨"A", "SomeType"⟩] [] [] [] []

/-- C6 counterexample: for `using A = SomeType;` at top level, the mapping stores
`A ↦ SomeType` (the resolution of the aliased type, line 83 of header.py), not
`A ↦ A` (the scope-qualified alias name), so the claim fails on using-aliases. -/
theorem claimC6_counterexample : ¬ claimC6_prop aliasOnlyNamespace := by decide

/-- C6 (amended): under pairwise-distinct declaration keys, every *non-alias*
declaration (typedef, named enum, class at any depth) is mapped from its
unqualified name to its scope-qualified name; the mapping's domain is exactly the
collected keys (in particular anonymous enums contribute no entry); using-aliases
are keyed by the alias name but valued by the resolution of the aliased type. -/
theorem build_naive_mapping_completeness (data : NamespaceScope)
    (hnodup : ((collect_env_entries "" data).map (·.key)).Nodup) :
    (∀ e ∈ collect_env_entries "" data, e.isAliasEntry = false →
      mget (build_naive_mapping data [] "") e.key = some (e.scope ++ e.key)) ∧
    (∀ k, (mget (build_naive_mapping data [] "") k).isSome ↔
      k ∈ (collect_env_entries "" data).map (·.key)) := by
  obtain ⟨new, heq, hkeys, hmem⟩ := build_naive_mapping_spec data [] ""
  rw [List.append_nil] at heq
  constructor
  · intro e he hna
    have h2 : (new.map Prod.fst).Nodup := by
      rw [hkeys]
      exact List.nodup_reverse.mpr hnodup
    have h3 := mget_append_unique new [] e.key (e.scope ++ e.key) (hmem e he hna) h2
    rw [List.append_nil] at h3
    rw [heq]
    exact h3
  · intro k
    rw [heq, mget_isSome_iff, hkeys, List.mem_reverse]

def nestedDeclNamespace : NamespaceScope :=
  .mk [] [⟨"Td"⟩]
    [⟨[⟨"anon0", true⟩], [⟨"HIDDEN"⟩]⟩]
    [ClassScope.mk [⟨"vpOuter", false⟩] none [] [] [] []
      [⟨[⟨"InnerEnum", false⟩], [⟨"IE1"⟩]⟩]
      [ClassScope.mk [⟨"Inner", false⟩] none [] [] [] [⟨"InnerTd"⟩] [] []]]
    [("detail", .mk [] [⟨"DetailTd"⟩] [] [] [])]

/-- Witness for `build_naive_mapping_completeness` on a tree with a typedef, an
anonymous enum, a class with a depth-2 nested class and nested enum, and a nested
namespace. -/
theorem build_naive_mapping_completeness_witness :
    (∀ e ∈ collect_env_entries "" nestedDeclNamespace, e.isAliasEntry = false →
      mget (build_naive_mapping nestedDeclNamespace [] "") e.key = some (e.scope ++ e.key)) ∧
    (∀ k, (mget (build_naive_mapping nestedDeclNamespace [] "") k).isSome ↔
      k ∈ (collect_env_entries "" nestedDeclNamespace).map (·.key)) :=
  build_naive_mapping_completeness nestedDeclNamespace (by decide)

def typedefOneNamespace : NamespaceScope := .mk [] [⟨"T1"⟩] [] [] []
def typedefTwoNamespace : NamespaceScope := .mk [] [⟨"T2"⟩] [] [] []

/-- C7: `build_naive_mapping`'s `mapping={}` default accumulates across top-level
calls. First conjunct: every key bound by an earlier `HeaderEnvironment`
construction is still bound in the mapping produced by a later construction that
starts from the shared default left behind. Second conjunct: the later
construction's result differs from what the same header yields when started from a
fresh empty default — the function is not deterministic in its explicit arguments
alone. -/
theorem build_naive_mapping_shared_default_accumulation :
    (∀ (d1 d2 : NamespaceScope) (k v : String),
      mget (headerEnvironment_init d1 []) k = some v →
      (mget (headerEnvironment_init d2 (headerEnvironment_init d1 [])) k).isSome) ∧
    headerEnvironment_init typedefTwoNamespace (headerEnvironment_init typedefOneNamespace []) ≠
      headerEnvironment_init typedefTwoNamespace [] := by
  constructor
  · intro d1 d2 k v hk
    have hshape : ∃ N, headerEnvironment_init d2 (headerEnvironment_init d1 []) =
        N ++ headerEnvironment_init d1 [] := by
      obtain ⟨new, heq, -, -⟩ :=
        build_naive_mapping_spec d2 (headerEnvironment_init d1 []) ""
      refine ⟨((resolve_enums_and_typedefs d2 (new ++ headerEnvironment_init d1 [])).flatMap
        (fun er => er.values.map (fun v => (v.name, er.name ++ "::" ++ v.name)))).reverse
          ++ new, ?_⟩
      rw [headerEnvironment_init, write_enum_values_spec, heq, List.append_assoc]
    obtain ⟨N, hN⟩ := hshape
    rw [hN]
    exact mget_mono N _ k (by simp [hk])
  · decide

/-- Witness for the first conjunct of
`build_naive_mapping_shared_default_accumulation`: the typedef `T1` registered by
the first header is still bound after building the second header's environment on
the shared default. -/
theorem build_naive_mapping_shared_default_accumulation_witness :
    (mget (headerEnvironment_init typedefTwoNamespace
      (headerEnvironment_init typedefOneNamespace [])) "T1").isSome :=
  build_naive_mapping_shared_default_accumulation.1 typedefOneNamespace typedefTwoNamespace
    "T1" "T1" (by decide)

/-- Claim C8 as stated: each enumeration value of each resolved enum is registered
*under* (i.e. keyed by) the qualified form `<EnumName>::<ValueName>`. -/
def claimC8_prop (data : NamespaceScope) (shared : Mapping) : Prop :=
  ∀ er ∈ resolve_enums_and_typedefs data (build_naive_mapping data shared ""),
    ∀ v ∈ er.values,
      (mget (headerEnvironment_init data shared) (er.name ++ "::" ++ v.name)).isSome

instance (data : NamespaceScope) (shared : Mapping) : Decidable (claimC8_prop data shared) := by
  unfold claimC8_prop; infer_instance

def enumOneNamespace : NamespaceScope := .mk [] [] [⟨[⟨"E", false⟩], [⟨"V"⟩]⟩] [] []

/-- C8 counterexample: for `enum E { V }`, `HeaderEnvironment.__init__` (line 78 of
header.py) writes `mapping[value.name] = enum_repr.name + '::' + value.name`, so
the mapping binds the key `V` — no entry keyed `E::V` exists. -/
theorem claimC8_counterexample : ¬ claimC8_prop enumOneNamespace [] := by decide

/-- C8 (amended): each enumeration value of each resolved enum is registered keyed
by its *unqualified* value name, with the qualified form `<EnumName>::<ValueName>`
as the stored value (assuming value names do not collide across the header's
enums). -/
theorem enum_values_registered_under_value_name (data : NamespaceScope) (shared : Mapping)
    (hnodup : ((resolve_enums_and_typedefs data (build_naive_mapping data shared "")).flatMap
      (fun er => er.values.map (·.name))).Nodup) :
    ∀ er ∈ resolve_enums_and_typedefs data (build_naive_mapping data shared ""),
      ∀ v ∈ er.values,
        mget (headerEnvironment_init data shared) v.name =
          some (er.name ++ "::" ++ v.name) := by
  intro er her v hv
  rw [headerEnvironment_init, write_enum_values_spec]
  apply mget_append_unique
  · simp only [List.mem_reverse, List.mem_flatMap, List.mem_map]
    exact ⟨er, her, v, hv, rfl⟩
  · rw [List.map_reverse, List.nodup_reverse]
    have hk : ((resolve_enums_and_typedefs data (build_naive_mapping data shared "")).flatMap
        (fun er => er.values.map (fun v => (v.name, er.name ++ "::" ++ v.name)))).map
          Prod.fst =
        (resolve_enums_and_typedefs data (build_naive_mapping data shared "")).flatMap
          (fun er => er.values.map (·.name)) := by
      simp [List.map_flatMap, List.map_map, Function.comp_def]
    rw [hk]
    exact hnodup

/-- Witness for `enum_values_registered_under_value_name` on `enum E { V }`:
the mapping binds `V ↦ E::V`. -/
theorem enum_values_registered_under_value_name_witness :
    mget (headerEnvironment_init enumOneNamespace []) "V" = some ("E" ++ "::" ++ "V") :=
  enum_values_registered_under_value_name enumOneNamespace [] (by decide)
    ⟨"E", [⟨"V"⟩]⟩ (by decide) ⟨"V"⟩ (by decide)

/- ## The class/method emitter (`HeaderFile.generate_class`, header.py lines 210-401) -/

/-- A fatal abort of the generation run: the `raise RuntimeError` of the overload
check (line 368) and of the preprocessing loop (generator.py line 60), or a failed
`assert` (header.py lines 326 and 397). -/
inductive GenAbort where
  | runtimeError
  | assertionError
deriving DecidableEq

/-- One generated registration statement, recorded structurally (the statement's
textual rendering through the environment is irrelevant to the claims). -/
inductive Emission where
  | ctor (params : List String)
  | binaryOp (pythonOpName : String)
  | inPlaceOp (pythonOpName : String)
  | method (name : String) (isStatic : Bool)
  | reprStr
  | additionalBindings (fn : String)
deriving DecidableEq

/-- Is this emission a constructor registration? -/
def Emission.isCtor : Emission → Bool
  | .ctor _ => true
  | _ => false

/-- One declared template specialization from the per-class configuration
(named `TemplateSpec` here because Mathlib already takes `Specialization`). -/
structure TemplateSpec where
  pythonName : String
  arguments : List String
deriving DecidableEq

/-- The per-class configuration dict (`cls_config`); a missing or empty
`specializations` key is rendered as the empty list. -/
structure ClassConfig where
  isVirtual : Bool
  useBufferProtocol : Bool
  ignoreRepr : Bool
  additionalBindings : Option String
  specializations : List TemplateSpec

/-- The per-method configuration returned by the acceptance policy
(`method_config`); only its optional `specializations` key is read here. -/
structure MethodConfig where
  specializations : Option (List (List String))
deriving DecidableEq

/-- Modelled from the spec: `methods.supported_const_return_binary_op_map`, the
fixed map from value-returning binary C++ operator symbols to python dunder names
(arithmetic and comparison). -/
def supported_const_return_binary_op_map : List (String × String) :=
  [("==", "eq"), ("!=", "ne"), ("<", "lt"), (">", "gt"), ("<=", "le"), (">=", "ge"),
   ("+", "add"), ("-", "sub"), ("*", "mul"), ("/", "truediv")]

/-- Modelled from the spec: `methods.supported_in_place_binary_op_map`, the fixed
map from in-place binary C++ operator symbols to python dunder names. -/
def supported_in_place_binary_op_map : List (String × String) :=
  [("+=", "iadd"), ("-=", "isub"), ("*=", "imul"), ("/=", "itruediv")]

/-- Modelled from the spec: `utils.cpp_operator_list`, the fixed recognized set of
operator method names. -/
def cpp_operator_list : List String :=
  (supported_const_return_binary_op_map ++ supported_in_place_binary_op_map).map
    (fun p => "operator" ++ p.1)

/-- The slice of `define_method`'s generated-method tuple inspected by the
post-emission overload check: the bound name and its dispatch kind. -/
structure GeneratedMethod where
  name : String
  isStatic : Bool
deriving DecidableEq

/-- Modelled from the spec: `methods.get_static_and_instance_overloads` scans the
generated registrations of one class for a method name bound both as an instance
method and as a static overload. -/
def get_static_and_instance_overloads (gms : List GeneratedMethod) : List String :=
  ((gms.map (·.name)).eraseDups).filter (fun n =>
    gms.any (fun g => g.name == n && g.isStatic) &&
      gms.any (fun g => g.name == n && !g.isStatic))

/-- The categorized reason attached to a rejection (slice of
`NotGeneratedReason`). -/
inductive RejectReason where
  | notHandled
deriving DecidableEq

/-- One rejection recorded into the submodule report (slice of
`RejectedMethod`). -/
structure OpReport where
  methodName : String
  reason : RejectReason
deriving DecidableEq

/-- The operator loop body (header.py lines 285-316) for one accepted operator
method. More than one parameter: skip, record a `NotHandled` rejection into the
report (lines 292-296). Fewer than one parameter (unary): skip with only a console
message — the `continue` on line 299 records nothing. Exactly one parameter: emit
at most one value-returning and one in-place registration, by exact name match
against the two operator maps. -/
def process_operator (m : ClassMethod) : List Emission × List OpReport :=
  if m.parameters.length > 1 then
    ([], [⟨m.name, RejectReason.notHandled⟩])
  else if m.parameters.length < 1 then
    ([], [])
  else
    (((supported_const_return_binary_op_map.find?
          (fun p => m.name == "operator" ++ p.1)).toList.map
        (fun p => Emission.binaryOp p.2)) ++
      ((supported_in_place_binary_op_map.find?
          (fun p => m.name == "operator" ++ p.1)).toList.map
        (fun p => Emission.inPlaceOp p.2)),
     [])

/-- The operator loop over all accepted operator methods, concatenating emissions
and report entries in order. -/
def process_operators : List (ClassMethod × MethodConfig) → List Emission × List OpReport
  | [] => ([], [])
  | mc :: rest =>
    ((process_operator mc.1).1 ++ (process_operators rest).1,
     (process_operator mc.1).2 ++ (process_operators rest).2)

/-- The method-specialization expansion of one templated basic method (header.py
lines 321-332), including the line 326 assertion that each declared method
specialization has as many arguments as the method has template parameters. -/
def expand_method_specializations (m : ClassMethod) (tnames : List String) :
    List (List String) → Except GenAbort (List Emission × List GeneratedMethod)
  | [] => .ok ([], [])
  | sp :: rest =>
    if tnames.length = sp.length then
      match expand_method_specializations m tnames rest with
      | .error e => .error e
      | .ok (ems, gms) =>
        .ok (Emission.method m.name m.isStatic :: ems, ⟨m.name, m.isStatic⟩ :: gms)
    else .error .assertionError

/-- One iteration of the basic-method loop (header.py lines 320-337): a templated
method whose config declares specializations is expanded once per specialization
(line 321's test); any other method is emitted once via `define_method`. -/
def define_one_basic_method (m : ClassMethod) (mc : MethodConfig) :
    Except GenAbort (List Emission × List GeneratedMethod) :=
  match m.template, mc.specializations with
  | some tnames, some specs => expand_method_specializations m tnames specs
  | _, _ => .ok ([Emission.method m.name m.isStatic], [⟨m.name, m.isStatic⟩])

/-- The basic-method loop (header.py lines 318-337), collecting each method's
emissions and generated-method tuples for the later overload check. -/
def define_basic_methods : List (ClassMethod × MethodConfig) →
    Except GenAbort (List Emission × List GeneratedMethod)
  | [] => .ok ([], [])
  | (m, mc) :: rest =>
    match define_one_basic_method m mc with
    | .error e => .error e
    | .ok (ems, gms) =>
      match define_basic_methods rest with
      | .error e => .error e
      | .ok (ems2, gms2) => .ok (ems ++ ems2, gms ++ gms2)

/-- Modelled from the spec: `find_and_define_repr_str` emits one
string-representation registration when the class declares the recognized
conversion-to-text operator, and nothing otherwise. -/
def find_and_define_repr_str (cls : ClassScope) : List Emission :=
  if cls.methods.any (fun m => m.name == "operator<<") then [Emission.reprStr] else []

/-- Modelled from the spec: `get_bindable_methods_with_config` is the external
acceptance policy; methods it accepts are paired with their per-method config,
rejected ones are reported (non-fatally) and dropped. -/
def bindable_methods_with_config (policy : ClassMethod → Option MethodConfig)
    (ms : List ClassMethod) : List (ClassMethod × MethodConfig) :=
  ms.filterMap (fun m => (policy m).map (fun c => (m, c)))

/-- The constructor side of the `split_methods_with_config` split (line 267). -/
def bindable_constructors (policy : ClassMethod → Option MethodConfig)
    (cls : ClassScope) : List (ClassMethod × MethodConfig) :=
  (bindable_methods_with_config policy cls.methods).filter (fun mc => mc.1.isConstructor)

/-- The operator side of the second split (line 271). -/
def bindable_operators (policy : ClassMethod → Option MethodConfig)
    (cls : ClassScope) : List (ClassMethod × MethodConfig) :=
  ((bindable_methods_with_config policy cls.methods).filter
      (fun mc => !mc.1.isConstructor)).filter
    (fun mc => cpp_operator_list.contains mc.1.name)

/-- The plain-method side of the second split (line 271). -/
def bindable_basic_methods (policy : ClassMethod → Option MethodConfig)
    (cls : ClassScope) : List (ClassMethod × MethodConfig) :=
  ((bindable_methods_with_config policy cls.methods).filter
      (fun mc => !mc.1.isConstructor)).filter
    (fun mc => !(cpp_operator_list.contains mc.1.name))

/-- `generate_class_with_potiental_specialization` (header.py lines 211-371, source
spelling). Emissions follow the source's `method_strs` order: constructors
(skipped entirely when the class has a pure-virtual method or is configured
virtual — evaluated before any constructor emission), operators, basic methods,
repr, additional bindings. The final overload check (lines 358-368) raises
`RuntimeError` when a name is generated with both dispatch kinds. The class
registration statement (line 236) goes to the declarations channel and is not part
of `method_strs`; `name_python` and `owner_specs` only influence textual
rendering, which is abstracted away. -/
def generate_class_with_potiental_specialization
    (policy : ClassMethod → Option MethodConfig) (cls : ClassScope) (cls_config : ClassConfig)
    (name_python : String) (owner_specs : List (String × String)) :
    Except GenAbort (List Emission × List OpReport) :=
  let contains_pure_virtual_methods :=
    cls.methods.any (fun m => m.pureVirtual) || cls_config.isVirtual
  let ctor_strs :=
    if !contains_pure_virtual_methods then
      (bindable_constructors policy cls).map (fun mc => Emission.ctor mc.1.parameters)
    else []
  let op_result := process_operators (bindable_operators policy cls)
  match define_basic_methods (bindable_basic_methods policy cls) with
  | .error e => .error e
  | .ok (basic_strs, generated_methods) =>
    let repr_strs := if !cls_config.ignoreRepr then find_and_define_repr_str cls else []
    let additional_strs :=
      match cls_config.additionalBindings with
      | some fn => [Emission.additionalBindings fn]
      | none => []
    if get_static_and_instance_overloads generated_methods ≠ [] then
      .error .runtimeError
    else
      .ok (ctor_strs ++ op_result.1 ++ basic_strs ++ repr_strs ++ additional_strs,
        op_result.2)

/-- The specialization loop of `HeaderFile.generate_class` (lines 394-399): for
each declared specialization, first assert that its argument count equals the
class's template-parameter count (line 397), then emit that specialization. -/
def generate_class_specializations (policy : ClassMethod → Option MethodConfig)
    (cls : ClassScope) (cls_config : ClassConfig) (template_names : List String) :
    List TemplateSpec → Except GenAbort (List Emission × List OpReport)
  | [] => .ok ([], [])
  | spec :: rest =>
    if template_names.length = spec.arguments.length then
      match generate_class_with_potiental_specialization policy cls cls_config
          spec.pythonName (template_names.zip spec.arguments) with
      | .error e => .error e
      | .ok (ems, reps) =>
        match generate_class_specializations policy cls cls_config template_names rest with
        | .error e => .error e
        | .ok (ems2, reps2) => .ok (ems ++ ems2, reps ++ reps2)
    else .error .assertionError

/-- The submodule interface the generator reads (the `Submodule` class of
`submodule.py`; named `SubmoduleModel` here because Mathlib already takes
`Submodule`): its name, header list, the ignore predicate
(`class_should_be_ignored`) and the per-class configuration lookup
(`get_class_config`). -/
structure SubmoduleModel where
  name : String
  headers : List HeaderFile
  shouldIgnore : String → Bool
  getClassConfig : String → ClassConfig

/-- `HeaderFile.generate_class` (lines 210, 374-401): ignore-listed classes are
skipped with a report entry (non-fatal); a non-templated class is emitted once
(its python name strips the `vp` prefix); a templated class without declared
specializations is skipped with a report entry (non-fatal); otherwise each
declared specialization is asserted and emitted. -/
def generate_class (sub : SubmoduleModel) (policy : ClassMethod → Option MethodConfig)
    (cls : ClassScope) : Except GenAbort (List Emission × List OpReport) :=
  let name_cpp_no_template := joinSegments cls.segments
  if sub.shouldIgnore name_cpp_no_template then .ok ([], [])
  else
    let cls_config := sub.getClassConfig name_cpp_no_template
    match cls.template with
    | none =>
      generate_class_with_potiental_specialization policy cls cls_config
        (name_cpp_no_template.replace "vp" "") []
    | some template_names =>
      if cls_config.specializations.isEmpty then .ok ([], [])
      else
        generate_class_specializations policy cls cls_config template_names
          cls_config.specializations

/- ## The orchestrator (`generate_module`, generator.py lines 45-97) -/

/-- One output file of a generation run: a per-submodule binding file or the
aggregate entry point `main.cpp`. -/
inductive WrittenFile where
  | submoduleFile (name : String)
  | mainCpp
deriving DecidableEq

/-- The observable outcome of a run: the files written, in order, and the abort
that ended the run (if any). -/
structure RunOutput where
  written : List WrittenFile
  error : Option GenAbort
deriving DecidableEq

/-- The class loop of `HeaderFile.parse_data` (header.py lines 202-203): generate
each top-level class in order, concatenating outputs; a raised error propagates. -/
def parse_data_classes (sub : SubmoduleModel) (policy : ClassMethod → Option MethodConfig) :
    List ClassScope → Except GenAbort (List Emission × List OpReport)
  | [] => .ok ([], [])
  | c :: rest =>
    match generate_class sub policy c with
    | .error e => .error e
    | .ok (ems, reps) =>
      match parse_data_classes sub policy rest with
      | .error e => .error e
      | .ok (ems2, reps2) => .ok (ems ++ ems2, reps ++ reps2)

/-- `HeaderFile.parse_data` (lines 190-208) for one header: binding code for its
top-level classes. (The trailing enum bindings write no files and raise none of
the aborts under study.) -/
def parse_data (sub : SubmoduleModel) (policy : ClassMethod → Option MethodConfig)
    (h : HeaderFile) : Except GenAbort (List Emission × List OpReport) :=
  parse_data_classes sub policy h.namespaceScope.classes

/-- Modelled from the spec: the header loop of `Submodule.generate` — each
submodule generates the binding code of its headers in order; a raised error
propagates. -/
def submodule_generate_headers (sub : SubmoduleModel)
    (policy : ClassMethod → Option MethodConfig) :
    List HeaderFile → Except GenAbort (List Emission × List OpReport)
  | [] => .ok ([], [])
  | h :: rest =>
    match parse_data sub policy h with
    | .error e => .error e
    | .ok (ems, reps) =>
      match submodule_generate_headers sub policy rest with
      | .error e => .error e
      | .ok (ems2, reps2) => .ok (ems ++ ems2, reps ++ reps2)

/-- Modelled from the spec: `Submodule.generate` writes one binding file per
submodule once its headers all generated; a raised error propagates and nothing is
written for this submodule. -/
def submodule_generate (policy : ClassMethod → Option MethodConfig)
    (sub : SubmoduleModel) : Except GenAbort WrittenFile :=
  match submodule_generate_headers sub policy sub.headers with
  | .error e => .error e
  | .ok _ => .ok (WrittenFile.submoduleFile sub.name)

/-- Step 2 of `generate_module` (lines 80-81): generate each submodule in order,
accumulating the files written so far; the first raised error ends the run with
only the earlier submodules' files written. -/
def run_submodules (policy : ClassMethod → Option MethodConfig) :
    List SubmoduleModel → List WrittenFile → List WrittenFile × Option GenAbort
  | [], acc => (acc, none)
  | s :: rest, acc =>
    match submodule_generate policy s with
    | .error e => (acc, some e)
    | .ok f => run_submodules policy rest (acc ++ [f])

/-- Modelled from the spec: `Submodule.set_headers_from_common_list` — after the
cross-submodule sort (generator.py line 76), each submodule takes back its own
headers (identified by source path) from the common sorted list, in sorted
order. -/
def set_headers_from_common_list (new_all_headers : List HeaderFile)
    (s : SubmoduleModel) : SubmoduleModel :=
  { s with headers :=
      new_all_headers.filter (fun h => (s.headers.map (·.id)).contains h.id) }

/-- `generate_module` (generator.py lines 45-97). Preprocessing (external
pcpp + parse, run per header in a worker pool) is modelled by a success predicate:
`header_preprocess` (lines 11-22) returns the header on success and `None` on any
exception, and the collection loop (lines 56-61) materializes every result and
raises `RuntimeError` on the first `None` — before any output file exists. Then
the headers are sorted across submodules (line 65), redistributed to their
submodules (line 76), each submodule generates and writes its file (step 2), and
`main.cpp` is written last (step 3, lines 84-97). The environment steps
(lines 66-73) write no files and raise none of the aborts under study. -/
def generate_module (preprocess_ok : HeaderFile → Bool)
    (policy : ClassMethod → Option MethodConfig)
    (submodules : List SubmoduleModel) : RunOutput :=
  let all_headers := submodules.flatMap (·.headers)
  if !(all_headers.all preprocess_ok) then
    { written := [], error := some GenAbort.runtimeError }
  else
    let new_all_headers := sort_headers all_headers
    let submodules2 := submodules.map (set_headers_from_common_list new_all_headers)
    match run_submodules policy submodules2 [] with
    | (files, some e) => { written := files, error := some e }
    | (files, none) => { written := files ++ [WrittenFile.mainCpp], error := none }

/- ## Operator arity (C4) -/

/-- Claim C4 as stated: every operator method with parameter count ≠ 1 yields no
registration *and* records a rejection in the report. -/
def claimC4_prop (m : ClassMethod) : Prop :=
  m.parameters.length ≠ 1 →
    (process_operator m).1 = [] ∧ (process_operator m).2 ≠ []

instance (m : ClassMethod) : Decidable (claimC4_prop m) := by
  unfold claimC4_prop; infer_instance

/-- A parsed zero-parameter (unary) `operator-`. -/
def unaryMinusOperator : ClassMethod :=
  ⟨"operator-", false, false, false, true, [], none, "vpColVector"⟩

/-- C4 counterexample: for a unary operator (zero parameters), the `continue` on
line 299 of header.py skips the method with only a console message — no rejection
is recorded in the report, unlike the more-than-one-parameter branch
(lines 294-295). -/
theorem claimC4_counterexample : ¬ claimC4_prop unaryMinusOperator := by decide

/-- C4 (amended): an operator method with parameter count ≠ 1 never yields a
registration; when the count exceeds 1 a categorized `NotHandled` rejection is
recorded in the report, but in the zero-parameter (unary) case the method is
skipped with only a console message and no report entry. -/
theorem process_operator_arity (m : ClassMethod) (h : m.parameters.length ≠ 1) :
    (process_operator m).1 = [] ∧
    (m.parameters.length > 1 →
      (process_operator m).2 = [⟨m.name, RejectReason.notHandled⟩]) ∧
    (m.parameters.length = 0 → (process_operator m).2 = []) := by
  unfold process_operator
  split_ifs with h1 h2
  · exact ⟨rfl, fun _ => rfl, fun h0 => by omega⟩
  · exact ⟨rfl, fun hgt => by omega, fun _ => rfl⟩
  · exact absurd (by omega : m.parameters.length = 1) h

/-- A parsed two-parameter `operator+`. -/
def twoParamPlusOperator : ClassMethod :=
  ⟨"operator+", false, false, false, true, ["const vpColVector&", "double"], none,
    "vpColVector"⟩

/-- Witness for `process_operator_arity` at the two-parameter `operator+`. -/
theorem process_operator_arity_witness :
    (process_operator twoParamPlusOperator).1 = [] ∧
    (twoParamPlusOperator.parameters.length > 1 →
      (process_operator twoParamPlusOperator).2 =
        [⟨twoParamPlusOperator.name, RejectReason.notHandled⟩]) ∧
    (twoParamPlusOperator.parameters.length = 0 →
      (process_operator twoParamPlusOperator).2 = []) :=
  process_operator_arity twoParamPlusOperator (by decide)

/- ## Constructor suppression (C5) -/

/-- The operator loop never emits a constructor registration. -/
theorem process_operator_no_ctor (m : ClassMethod) :
    ∀ e ∈ (process_operator m).1, e.isCtor = false := by
  intro e he
  unfold process_operator at he
  split_ifs at he with h1 h2
  · simp at he
  · simp at he
  · simp only [] at he
    rcases List.mem_append.mp he with hl | hr
    · obtain ⟨p, hp, rfl⟩ := List.mem_map.mp hl
      rfl
    · obtain ⟨p, hp, rfl⟩ := List.mem_map.mp hr
      rfl

/-- The operator loop over a method list never emits a constructor registration. -/
theorem process_operators_no_ctor (l : List (ClassMethod × MethodConfig)) :
    ∀ e ∈ (process_operators l).1, e.isCtor = false := by
  induction l with
  | nil => intro e he; simp [process_operators] at he
  | cons mc rest ih =>
    intro e he
    rw [process_operators] at he
    simp only [] at he
    rcases List.mem_append.mp he with hl | hr
    · exact process_operator_no_ctor mc.1 e hl
    · exact ih e hr

/-- Method-specialization expansion only emits `method` registrations. -/
theorem expand_method_specializations_no_ctor (m : ClassMethod) (tnames : List String) :
    ∀ (l : List (List String)) (ems : List Emission) (gms : List GeneratedMethod),
      expand_method_specializations m tnames l = .ok (ems, gms) →
      ∀ e ∈ ems, e.isCtor = false := by
  intro l
  induction l with
  | nil =>
    intro ems gms h e he
    rw [expand_method_specializations] at h
    obtain ⟨rfl, rfl⟩ : [] = ems ∧ [] = gms := by
      injection h with h'
      exact ⟨congrArg Prod.fst h', congrArg Prod.snd h'⟩
    simp at he
  | cons sp rest ih =>
    intro ems gms h e he
    rw [expand_method_specializations] at h
    split_ifs at h with harity
    · cases hrec : expand_method_specializations m tnames rest with
      | error e2 => rw [hrec] at h; exact absurd h (by simp)
      | ok pr =>
        obtain ⟨ems1, gms1⟩ := pr
        rw [hrec] at h
        obtain ⟨hems, -⟩ : Emission.method m.name m.isStatic :: ems1 = ems ∧
            GeneratedMethod.mk m.name m.isStatic :: gms1 = gms := by
          injection h with h'
          exact ⟨congrArg Prod.fst h', congrArg Prod.snd h'⟩
        subst hems
        rcases List.mem_cons.mp he with rfl | hin
        · rfl
        · exact ih ems1 gms1 hrec e hin

/-- One basic-method step only emits `method` registrations. -/
theorem define_one_basic_method_no_ctor (m : ClassMethod) (mc : MethodConfig)
    (ems : List Emission) (gms : List GeneratedMethod)
    (h : define_one_basic_method m mc = .ok (ems, gms)) :
    ∀ e ∈ ems, e.isCtor = false := by
  intro e he
  unfold define_one_basic_method at h
  rcases htm : m.template with _ | tnames <;> rcases hmc : mc.specializations with _ | specs <;>
    rw [htm, hmc] at h
  · obtain ⟨hems, -⟩ : [Emission.method m.name m.isStatic] = ems ∧
        [GeneratedMethod.mk m.name m.isStatic] = gms := by
      injection h with h'
      exact ⟨congrArg Prod.fst h', congrArg Prod.snd h'⟩
    subst hems
    rcases List.mem_singleton.mp he with rfl
    rfl
  · obtain ⟨hems, -⟩ : [Emission.method m.name m.isStatic] = ems ∧
        [GeneratedMethod.mk m.name m.isStatic] = gms := by
      injection h with h'
      exact ⟨congrArg Prod.fst h', congrArg Prod.snd h'⟩
    subst hems
    rcases List.mem_singleton.mp he with rfl
    rfl
  · obtain ⟨hems, -⟩ : [Emission.method m.name m.isStatic] = ems ∧
        [GeneratedMethod.mk m.name m.isStatic] = gms := by
      injection h with h'
      exact ⟨congrArg Prod.fst h', congrArg Prod.snd h'⟩
    subst hems
    rcases List.mem_singleton.mp he with rfl
    rfl
  · exact expand_method_specializations_no_ctor m tnames specs ems gms h e he

/-- The basic-method loop only emits `method` registrations. -/
theorem define_basic_methods_no_ctor :
    ∀ (l : List (ClassMethod × MethodConfig)) (ems : List Emission)
      (gms : List GeneratedMethod),
      define_basic_methods l = .ok (ems, gms) → ∀ e ∈ ems, e.isCtor = false := by
  intro l
  induction l with
  | nil =>
    intro ems gms h e he
    rw [define_basic_methods] at h
    obtain ⟨rfl, rfl⟩ : [] = ems ∧ [] = gms := by
      injection h with h'
      exact ⟨congrArg Prod.fst h', congrArg Prod.snd h'⟩
    simp at he
  | cons mcp rest ih =>
    intro ems gms h e he
    obtain ⟨m, mc⟩ := mcp
    rw [define_basic_methods] at h
    cases hone : define_one_basic_method m mc with
    | error e2 => rw [hone] at h; exact absurd h (by simp)
    | ok pr1 =>
      obtain ⟨ems1, gms1⟩ := pr1
      rw [hone] at h
      cases hrec : define_basic_methods rest with
      | error e2 => rw [hrec] at h; exact absurd h (by simp)
      | ok pr2 =>
        obtain ⟨ems2, gms2⟩ := pr2
        rw [hrec] at h
        obtain ⟨hems, -⟩ : ems1 ++ ems2 = ems ∧ gms1 ++ gms2 = gms := by
          injection h with h'
          exact ⟨congrArg Prod.fst h', congrArg Prod.snd h'⟩
        subst hems
        rcases List.mem_append.mp he with hl | hr
        · exact define_one_basic_method_no_ctor m mc ems1 gms1 hone e hl
        · exact ih ems2 gms2 hrec e hr

/-- The repr registration is not a constructor registration. -/
theorem find_and_define_repr_str_no_ctor (cls : ClassScope) :
    ∀ e ∈ find_and_define_repr_str cls, e.isCtor = false := by
  intro e he
  unfold find_and_define_repr_str at he
  split_ifs at he
  · rcases List.mem_singleton.mp he with rfl
    rfl
  · simp at he

/-- Constructor suppression at the single-specialization level: when the class has
a pure-virtual method or is configured virtual, a successful emission contains no
constructor registration (the suppression flag is computed before the constructor
section, whose whole block is skipped). -/
theorem generate_class_with_potiental_specialization_no_ctor
    (policy : ClassMethod → Option MethodConfig) (cls : ClassScope)
    (cls_config : ClassConfig) (name_python : String) (owner_specs : List (String × String))
    (hvirt : (cls.methods.any (fun m => m.pureVirtual) || cls_config.isVirtual) = true)
    (ems : List Emission) (reps : List OpReport)
    (hok : generate_class_with_potiental_specialization policy cls cls_config
      name_python owner_specs = .ok (ems, reps)) :
    ∀ e ∈ ems, e.isCtor = false := by
  intro e he
  unfold generate_class_with_potiental_specialization at hok
  rw [hvirt] at hok
  simp only [Bool.not_true, Bool.false_eq_true, if_false] at hok
  cases hdb : define_basic_methods (bindable_basic_methods policy cls) with
  | error e2 => rw [hdb] at hok; exact absurd hok (by simp)
  | ok pr =>
    obtain ⟨basic_strs, generated_methods⟩ := pr
    rw [hdb] at hok
    dsimp only [] at hok
    by_cases hconf : get_static_and_instance_overloads generated_methods = []
    case neg =>
      rw [if_pos hconf] at hok
      exact absurd hok (by simp)
    rw [if_neg (by simp [hconf])] at hok
    obtain ⟨hems, -⟩ :
        [] ++ (process_operators (bindable_operators policy cls)).1 ++ basic_strs ++
            (if !cls_config.ignoreRepr then find_and_define_repr_str cls else []) ++
            (match cls_config.additionalBindings with
              | some fn => [Emission.additionalBindings fn]
              | none => []) = ems ∧
          (process_operators (bindable_operators policy cls)).2 = reps := by
      injection hok with h'
      exact ⟨congrArg Prod.fst h', congrArg Prod.snd h'⟩
    subst hems
    simp only [List.nil_append, List.mem_append] at he
    rcases he with ((hop | hbasic) | hrepr) | hadd
    · exact process_operators_no_ctor _ e hop
    · exact define_basic_methods_no_ctor _ basic_strs generated_methods hdb e hbasic
    · rcases hir : !cls_config.ignoreRepr with _ | _ <;> rw [hir] at hrepr
      · simp at hrepr
      · exact find_and_define_repr_str_no_ctor cls e hrepr
    · cases hab : cls_config.additionalBindings with
      | some fn =>
        rw [hab] at hadd
        rcases List.mem_singleton.mp hadd with rfl
        rfl
      | none => rw [hab] at hadd; simp at hadd

/-- Constructor suppression across the declared-specialization loop. -/
theorem generate_class_specializations_no_ctor
    (policy : ClassMethod → Option MethodConfig) (cls : ClassScope)
    (cls_config : ClassConfig) (template_names : List String)
    (hvirt : (cls.methods.any (fun m => m.pureVirtual) || cls_config.isVirtual) = true) :
    ∀ (l : List TemplateSpec) (ems : List Emission) (reps : List OpReport),
      generate_class_specializations policy cls cls_config template_names l =
        .ok (ems, reps) →
      ∀ e ∈ ems, e.isCtor = false := by
  intro l
  induction l with
  | nil =>
    intro ems reps h e he
    rw [generate_class_specializations] at h
    obtain ⟨rfl, rfl⟩ : [] = ems ∧ [] = reps := by
      injection h with h'
      exact ⟨congrArg Prod.fst h', congrArg Prod.snd h'⟩
    simp at he
  | cons sp rest ih =>
    intro ems reps h e he
    rw [generate_class_specializations] at h
    split_ifs at h with harity
    cases hg : generate_class_with_potiental_specialization policy cls cls_config
        sp.pythonName (template_names.zip sp.arguments) with
    | error e2 => rw [hg] at h; exact absurd h (by simp)
    | ok pr1 =>
      obtain ⟨ems1, reps1⟩ := pr1
      rw [hg] at h
      cases hrec : generate_class_specializations policy cls cls_config template_names
          rest with
      | error e2 => rw [hrec] at h; exact absurd h (by simp)
      | ok pr2 =>
        obtain ⟨ems2, reps2⟩ := pr2
        rw [hrec] at h
        obtain ⟨hems, -⟩ : ems1 ++ ems2 = ems ∧ reps1 ++ reps2 = reps := by
          injection h with h'
          exact ⟨congrArg Prod.fst h', congrArg Prod.snd h'⟩
        subst hems
        rcases List.mem_append.mp he with hl | hr
        · exact generate_class_with_potiental_specialization_no_ctor policy cls cls_config
            sp.pythonName (template_names.zip sp.arguments) hvirt ems1 reps1 hg e hl
        · exact ih ems2 reps2 hrec e hr

/-- C5: for every class with at least one pure-virtual method, or whose per-class
configuration marks it virtual-only, a successful `generate_class` emission
contains zero constructor registrations. The suppression flag
`contains_pure_virtual_methods` is computed before the constructor section (lines
241-249 precede line 274), which is skipped as a whole. -/
theorem generate_class_suppresses_constructors (sub : SubmoduleModel)
    (policy : ClassMethod → Option MethodConfig) (cls : ClassScope)
    (hvirt : (cls.methods.any (fun m => m.pureVirtual) ||
      (sub.getClassConfig (joinSegments cls.segments)).isVirtual) = true)
    (ems : List Emission) (reps : List OpReport)
    (hok : generate_class sub policy cls = .ok (ems, reps)) :
    ∀ e ∈ ems, e.isCtor = false := by
  intro e he
  unfold generate_class at hok
  dsimp only [] at hok
  by_cases hign : sub.shouldIgnore (joinSegments cls.segments) = true
  · rw [if_pos hign] at hok
    obtain ⟨rfl, rfl⟩ : ([] : List Emission) = ems ∧ ([] : List OpReport) = reps := by
      injection hok with h'
      exact ⟨congrArg Prod.fst h', congrArg Prod.snd h'⟩
    simp at he
  · rw [if_neg hign] at hok
    cases htm : cls.template with
    | none =>
      rw [htm] at hok
      dsimp only [] at hok
      exact generate_class_with_potiental_specialization_no_ctor policy cls _ _ _ hvirt
        ems reps hok e he
    | some template_names =>
      rw [htm] at hok
      dsimp only [] at hok
      by_cases hempty :
          (sub.getClassConfig (joinSegments cls.segments)).specializations.isEmpty = true
      · rw [if_pos hempty] at hok
        obtain ⟨rfl, rfl⟩ : ([] : List Emission) = ems ∧ ([] : List OpReport) = reps := by
          injection hok with h'
          exact ⟨congrArg Prod.fst h', congrArg Prod.snd h'⟩
        simp at he
      · rw [if_neg hempty] at hok
        exact generate_class_specializations_no_ctor policy cls _ template_names hvirt
          _ ems reps hok e he

/-- A pure-virtual class with one parsed constructor and one pure-virtual method. -/
def pureVirtualClass : ClassScope :=
  .mk [⟨"vpVirt", false⟩] none []
    [⟨"vpVirt", true, false, false, false, ["int"], none, ""⟩,
     ⟨"doIt", false, true, false, false, [], none, "void"⟩]
    [] [] [] []

/-- An accept-everything acceptance policy with no per-method specializations. -/
def acceptAllPolicy : ClassMethod → Option MethodConfig := fun _ => some ⟨none⟩

/-- A default per-class configuration: not virtual-only, no buffer protocol, repr
suppressed, no additional bindings, no declared specializations. -/
def defaultClassConfig : ClassConfig := ⟨false, false, true, none, []⟩

/-- A submodule that ignores nothing and configures every class with
`defaultClassConfig`. -/
def plainSubmodule (headers : List HeaderFile) : SubmoduleModel :=
  ⟨"core", headers, fun _ => false, fun _ => defaultClassConfig⟩

/-- Witness for `generate_class_suppresses_constructors`: the pure-virtual class
generates exactly its `doIt` method registration, which is no constructor. -/
theorem generate_class_suppresses_constructors_witness :
    (Emission.method "doIt" false).isCtor = false :=
  generate_class_suppresses_constructors (plainSubmodule []) acceptAllPolicy
    pureVirtualClass (by decide) [Emission.method "doIt" false] [] rfl
    (Emission.method "doIt" false) (List.mem_singleton.mpr rfl)

/- ## Overload-conflict abort (C3) -/

/-- When the basic-method loop succeeds and its generated registrations contain a
static/instance conflict, the post-emission check (header.py lines 358-368) raises
`RuntimeError`. -/
theorem generate_class_with_potiental_specialization_conflict
    (policy : ClassMethod → Option MethodConfig) (cls : ClassScope)
    (cls_config : ClassConfig) (name_python : String) (owner_specs : List (String × String))
    (basic_strs : List Emission) (gms : List GeneratedMethod)
    (hdb : define_basic_methods (bindable_basic_methods policy cls) = .ok (basic_strs, gms))
    (hconf : get_static_and_instance_overloads gms ≠ []) :
    generate_class_with_potiental_specialization policy cls cls_config name_python
      owner_specs = .error .runtimeError := by
  unfold generate_class_with_potiental_specialization
  rw [hdb]
  dsimp only []
  rw [if_pos hconf]

/-- A non-ignored, non-templated class with conflicting generated registrations
makes `generate_class` raise `RuntimeError`. -/
theorem generate_class_conflict (sub : SubmoduleModel)
    (policy : ClassMethod → Option MethodConfig) (cls : ClassScope)
    (hnoign : sub.shouldIgnore (joinSegments cls.segments) = false)
    (htm : cls.template = none)
    (basic_strs : List Emission) (gms : List GeneratedMethod)
    (hdb : define_basic_methods (bindable_basic_methods policy cls) = .ok (basic_strs, gms))
    (hconf : get_static_and_instance_overloads gms ≠ []) :
    generate_class sub policy cls = .error .runtimeError := by
  unfold generate_class
  dsimp only []
  rw [if_neg (by simp [hnoign]), htm]
  exact generate_class_with_potiental_specialization_conflict policy cls _ _ _
    basic_strs gms hdb hconf

/-- A raised error in any class of the list propagates out of the class loop. -/
theorem parse_data_classes_error (sub : SubmoduleModel)
    (policy : ClassMethod → Option MethodConfig) :
    ∀ l : List ClassScope, (∃ c ∈ l, ∃ e, generate_class sub policy c = .error e) →
      ∃ e, parse_data_classes sub policy l = .error e := by
  intro l
  induction l with
  | nil => rintro ⟨c, hc, -⟩; simp at hc
  | cons c rest ih =>
    rintro ⟨c2, hc2, e2, he2⟩
    rw [parse_data_classes]
    cases hg : generate_class sub policy c with
    | error e => exact ⟨e, rfl⟩
    | ok pr =>
      obtain ⟨ems, reps⟩ := pr
      rcases List.mem_cons.mp hc2 with rfl | hin
      · rw [hg] at he2; exact absurd he2 (by simp)
      · obtain ⟨e3, he3⟩ := ih ⟨c2, hin, e2, he2⟩
        rw [he3]
        exact ⟨e3, rfl⟩

/-- A raised error in any header of the list propagates out of the header loop. -/
theorem submodule_generate_headers_error (sub : SubmoduleModel)
    (policy : ClassMethod → Option MethodConfig) :
    ∀ l : List HeaderFile, (∃ h ∈ l, ∃ e, parse_data sub policy h = .error e) →
      ∃ e, submodule_generate_headers sub policy l = .error e := by
  intro l
  induction l with
  | nil => rintro ⟨h, hh, -⟩; simp at hh
  | cons h rest ih =>
    rintro ⟨h2, hh2, e2, he2⟩
    rw [submodule_generate_headers]
    cases hg : parse_data sub policy h with
    | error e => exact ⟨e, rfl⟩
    | ok pr =>
      obtain ⟨ems, reps⟩ := pr
      rcases List.mem_cons.mp hh2 with rfl | hin
      · rw [hg] at he2; exact absurd he2 (by simp)
      · obtain ⟨e3, he3⟩ := ih ⟨h2, hin, e2, he2⟩
        rw [he3]
        exact ⟨e3, rfl⟩

/-- A raised error in any header makes the submodule's generation raise. -/
theorem submodule_generate_error (policy : ClassMethod → Option MethodConfig)
    (sub : SubmoduleModel)
    (hfail : ∃ h ∈ sub.headers, ∃ e, parse_data sub policy h = .error e) :
    ∃ e, submodule_generate policy sub = .error e := by
  obtain ⟨e, he⟩ := submodule_generate_headers_error sub policy sub.headers hfail
  unfold submodule_generate
  rw [he]
  exact ⟨e, rfl⟩

/-- A successful submodule generation writes exactly that submodule's file. -/
theorem submodule_generate_ok_shape (policy : ClassMethod → Option MethodConfig)
    (sub : SubmoduleModel) (f : WrittenFile)
    (h : submodule_generate policy sub = .ok f) : f = .submoduleFile sub.name := by
  unfold submodule_generate at h
  cases hg : submodule_generate_headers sub policy sub.headers with
  | error e => rw [hg] at h; exact absurd h (by simp)
  | ok pr =>
    rw [hg] at h
    injection h with h'
    exact h'.symm

/-- If any submodule of the list raises, step 2 ends with an error. -/
theorem run_submodules_error (policy : ClassMethod → Option MethodConfig) :
    ∀ (l : List SubmoduleModel) (acc : List WrittenFile),
      (∃ s ∈ l, ∃ e, submodule_generate policy s = .error e) →
      ((run_submodules policy l acc).2).isSome = true := by
  intro l
  induction l with
  | nil => rintro acc ⟨s, hs, -⟩; simp at hs
  | cons s rest ih =>
    rintro acc ⟨s2, hs2, e2, he2⟩
    rw [run_submodules]
    cases hg : submodule_generate policy s with
    | error e => rfl
    | ok f =>
      rcases List.mem_cons.mp hs2 with rfl | hin
      · rw [hg] at he2; exact absurd he2 (by simp)
      · exact ih (acc ++ [f]) ⟨s2, hin, e2, he2⟩

/-- Step 2 only ever accumulates per-submodule files onto its accumulator; it
never writes `main.cpp`. -/
theorem run_submodules_written (policy : ClassMethod → Option MethodConfig) :
    ∀ (l : List SubmoduleModel) (acc : List WrittenFile) (f : WrittenFile),
      f ∈ (run_submodules policy l acc).1 → f ∈ acc ∨ ∃ n, f = .submoduleFile n := by
  intro l
  induction l with
  | nil => intro acc f hf; exact Or.inl hf
  | cons s rest ih =>
    intro acc f hf
    rw [run_submodules] at hf
    cases hg : submodule_generate policy s with
    | error e => rw [hg] at hf; exact Or.inl hf
    | ok f2 =>
      rw [hg] at hf
      rcases ih (acc ++ [f2]) f hf with hacc | hsub
      · rcases List.mem_append.mp hacc with hl | hr
        · exact Or.inl hl
        · have h2 := submodule_generate_ok_shape policy s f2 hg
          rw [List.mem_singleton.mp hr]
          exact Or.inr ⟨s.name, h2⟩
      · exact Or.inr hsub

/-- C3: if some submodule contains a header whose (non-ignored, non-templated)
class generates the same method name with both instance and static dispatch, the
whole run ends with an error and the aggregate entry point `main.cpp` is never
written — the conflict is a fatal `RuntimeError` from `generate_class`
(header.py line 368), raised during step 2, before step 3 writes `main.cpp`
(generator.py lines 83-97); it is never downgraded to a per-class skip. -/
theorem generate_module_aborts_on_overload_conflict
    (preprocess_ok : HeaderFile → Bool) (policy : ClassMethod → Option MethodConfig)
    (submodules : List SubmoduleModel) (s : SubmoduleModel) (h : HeaderFile)
    (cls : ClassScope) (basic_strs : List Emission) (gms : List GeneratedMethod)
    (hs : s ∈ submodules) (hh : h ∈ s.headers) (hcls : cls ∈ h.namespaceScope.classes)
    (hnoign : s.shouldIgnore (joinSegments cls.segments) = false)
    (htm : cls.template = none)
    (hdb : define_basic_methods (bindable_basic_methods policy cls) = .ok (basic_strs, gms))
    (hconf : get_static_and_instance_overloads gms ≠ []) :
    ((generate_module preprocess_ok policy submodules).error).isSome = true ∧
    WrittenFile.mainCpp ∉ (generate_module preprocess_ok policy submodules).written := by
  unfold generate_module
  dsimp only []
  by_cases hpre : (submodules.flatMap (·.headers)).all preprocess_ok = true
  case neg =>
    rw [if_pos (by simp [Bool.eq_false_iff.mpr hpre])]
    exact ⟨rfl, by simp⟩
  rw [if_neg (by simp [hpre])]
  have hhmem : h ∈ (set_headers_from_common_list
      (sort_headers (submodules.flatMap (·.headers))) s).headers := by
    show h ∈ (sort_headers (submodules.flatMap (·.headers))).filter
      (fun h2 => (s.headers.map (·.id)).contains h2.id)
    refine List.mem_filter.mpr ⟨?_, ?_⟩
    · exact (add_level_perm _ _ _ _).mem_iff.mpr (List.mem_flatMap.mpr ⟨s, hs, hh⟩)
    · show (s.headers.map (·.id)).elem h.id = true
      exact List.elem_iff.mpr (List.mem_map.mpr ⟨h, hh, rfl⟩)
  have hclserr : generate_class
      (set_headers_from_common_list (sort_headers (submodules.flatMap (·.headers))) s)
      policy cls = .error .runtimeError :=
    generate_class_conflict _ policy cls hnoign htm basic_strs gms hdb hconf
  have hsuberr : ∃ e, submodule_generate policy
      (set_headers_from_common_list (sort_headers (submodules.flatMap (·.headers))) s) =
      .error e := by
    refine submodule_generate_error policy _ ⟨h, hhmem, ?_⟩
    exact parse_data_classes_error _ policy h.namespaceScope.classes
      ⟨cls, hcls, .runtimeError, hclserr⟩
  have herr := run_submodules_error policy
    (submodules.map (set_headers_from_common_list
      (sort_headers (submodules.flatMap (·.headers))))) []
    ⟨_, List.mem_map.mpr ⟨s, hs, rfl⟩, hsuberr⟩
  cases hrun : run_submodules policy
      (submodules.map (set_headers_from_common_list
        (sort_headers (submodules.flatMap (·.headers))))) [] with
  | mk files err =>
    rw [hrun] at herr
    cases err with
    | none => exact absurd herr (by simp)
    | some e =>
      dsimp only []
      constructor
      · rfl
      · intro hmain
        rcases run_submodules_written policy
            (submodules.map (set_headers_from_common_list
              (sort_headers (submodules.flatMap (·.headers))))) []
            WrittenFile.mainCpp (by rw [hrun]; exact hmain) with habs | ⟨n, hn⟩
        · simp at habs
        · exact absurd hn (by simp)

/-- A class generating `compute` both as a static and as an instance method. -/
def conflictClass : ClassScope :=
  .mk [⟨"vpConf", false⟩] none []
    [⟨"compute", false, false, true, false, ["int"], none, "void"⟩,
     ⟨"compute", false, false, false, false, ["double"], none, "void"⟩]
    [] [] [] []

/-- A header declaring only `conflictClass`. -/
def conflictHeader : HeaderFile :=
  ⟨7, .mk [] [] [] [conflictClass] [], ["vpConf"], []⟩

def conflictSubmodule : SubmoduleModel := plainSubmodule [conflictHeader]

/-- Witness for `generate_module_aborts_on_overload_conflict` on a run with one
submodule whose one class has a static/instance `compute` conflict. -/
theorem generate_module_aborts_on_overload_conflict_witness :
    ((generate_module (fun _ => true) acceptAllPolicy [conflictSubmodule]).error).isSome =
      true ∧
    WrittenFile.mainCpp ∉
      (generate_module (fun _ => true) acceptAllPolicy [conflictSubmodule]).written :=
  generate_module_aborts_on_overload_conflict (fun _ => true) acceptAllPolicy
    [conflictSubmodule] conflictSubmodule conflictHeader conflictClass
    [Emission.method "compute" true, Emission.method "compute" false]
    [⟨"compute", true⟩, ⟨"compute", false⟩]
    (List.mem_singleton.mpr rfl) (List.mem_singleton.mpr rfl) (List.mem_singleton.mpr rfl)
    rfl rfl rfl (by decide)

/- ## Preprocessing failure aborts the run (C9) -/

/-- C9: if any header of any submodule fails its preprocessing/parse step
(`header_preprocess` returns `None` for it, generator.py lines 11-22), the run
raises `RuntimeError` at the collection loop (lines 58-61): no per-submodule
binding file and no `main.cpp` is produced — there is no partial-success mode. -/
theorem generate_module_preprocess_failure
    (preprocess_ok : HeaderFile → Bool) (policy : ClassMethod → Option MethodConfig)
    (submodules : List SubmoduleModel) (h : HeaderFile)
    (hmem : h ∈ submodules.flatMap (·.headers)) (hfail : preprocess_ok h = false) :
    (generate_module preprocess_ok policy submodules).written = [] ∧
    (generate_module preprocess_ok policy submodules).error =
      some GenAbort.runtimeError := by
  unfold generate_module
  dsimp only []
  rw [if_pos]
  · exact ⟨rfl, rfl⟩
  · cases hall : (submodules.flatMap (·.headers)).all preprocess_ok with
    | false => simp [hall]
    | true => exact absurd (List.all_eq_true.mp hall h hmem) (by simp [hfail])

/-- A header whose preprocessing is declared to fail. -/
def failingHeader : HeaderFile := ⟨3, emptyNamespace, [], []⟩

/-- Witness for `generate_module_preprocess_failure` on a run whose single header
fails preprocessing. -/
theorem generate_module_preprocess_failure_witness :
    (generate_module (fun _ => false) acceptAllPolicy
      [plainSubmodule [failingHeader]]).written = [] ∧
    (generate_module (fun _ => false) acceptAllPolicy
      [plainSubmodule [failingHeader]]).error = some GenAbort.runtimeError :=
  generate_module_preprocess_failure (fun _ => false) acceptAllPolicy
    [plainSubmodule [failingHeader]] failingHeader (by simp [plainSubmodule]) rfl

/- ## Wrong-arity specialization aborts via assertion (C10) -/

/-- The specialization loop with a wrong-arity declared specialization aborts with
*some* fatal error unconditionally; when every arity-correct specialization emits
successfully, the abort is precisely the line 397 assertion failure. -/
theorem generate_class_specializations_arity_abort
    (policy : ClassMethod → Option MethodConfig) (cls : ClassScope)
    (cls_config : ClassConfig) (template_names : List String) :
    ∀ l : List TemplateSpec,
      (∃ sp ∈ l, template_names.length ≠ sp.arguments.length) →
      (∃ e, generate_class_specializations policy cls cls_config template_names l =
        .error e) ∧
      ((∀ sp ∈ l, template_names.length = sp.arguments.length →
          ∃ out, generate_class_with_potiental_specialization policy cls cls_config
            sp.pythonName (template_names.zip sp.arguments) = .ok out) →
        generate_class_specializations policy cls cls_config template_names l =
          .error .assertionError) := by
  intro l
  induction l with
  | nil => rintro ⟨sp, hsp, -⟩; simp at hsp
  | cons sp rest ih =>
    rintro ⟨spb, hspb, hbad⟩
    by_cases harity : template_names.length = sp.arguments.length
    case neg =>
      constructor
      · exact ⟨.assertionError, by rw [generate_class_specializations, if_neg harity]⟩
      · intro hok
        rw [generate_class_specializations, if_neg harity]
    case pos =>
      have hspbrest : spb ∈ rest := by
        rcases List.mem_cons.mp hspb with rfl | hin
        · exact absurd harity hbad
        · exact hin
      constructor
      · rw [generate_class_specializations, if_pos harity]
        cases hg : generate_class_with_potiental_specialization policy cls cls_config
            sp.pythonName (template_names.zip sp.arguments) with
        | error e => exact ⟨e, rfl⟩
        | ok pr =>
          obtain ⟨ems1, reps1⟩ := pr
          obtain ⟨e2, he2⟩ := (ih ⟨spb, hspbrest, hbad⟩).1
          rw [he2]
          exact ⟨e2, rfl⟩
      · intro hok
        rw [generate_class_specializations, if_pos harity]
        obtain ⟨out, hout⟩ := hok sp (List.mem_cons_self sp rest) harity
        obtain ⟨ems1, reps1⟩ := out
        rw [hout]
        have hrec := (ih ⟨spb, hspbrest, hbad⟩).2
          (fun sp2 h2 harr => hok sp2 (List.mem_cons_of_mem _ h2) harr)
        rw [hrec]

/-- C10 (amended): a templated class whose configuration declares a specialization
with the wrong number of arguments always aborts the whole run with a fatal error
(never the non-fatal report-and-skip of the missing-specializations case); the
error is the line 397 `assert` failure, unless an earlier-listed specialization's
own emission already raised first. -/
theorem generate_class_specialization_arity_assertion (sub : SubmoduleModel)
    (policy : ClassMethod → Option MethodConfig) (cls : ClassScope)
    (template_names : List String)
    (htm : cls.template = some template_names)
    (hnoign : sub.shouldIgnore (joinSegments cls.segments) = false)
    (hbad : ∃ sp ∈ (sub.getClassConfig (joinSegments cls.segments)).specializations,
      template_names.length ≠ sp.arguments.length) :
    (∃ e, generate_class sub policy cls = .error e) ∧
    ((∀ sp ∈ (sub.getClassConfig (joinSegments cls.segments)).specializations,
        template_names.length = sp.arguments.length →
        ∃ out, generate_class_with_potiental_specialization policy cls
          (sub.getClassConfig (joinSegments cls.segments)) sp.pythonName
          (template_names.zip sp.arguments) = .ok out) →
      generate_class sub policy cls = .error .assertionError) := by
  have hne : (sub.getClassConfig (joinSegments cls.segments)).specializations.isEmpty =
      false := by
    obtain ⟨sp, hsp, -⟩ := hbad
    cases hl : (sub.getClassConfig (joinSegments cls.segments)).specializations with
    | nil => rw [hl] at hsp; simp at hsp
    | cons a b => rfl
  have hred : generate_class sub policy cls =
      generate_class_specializations policy cls
        (sub.getClassConfig (joinSegments cls.segments)) template_names
        (sub.getClassConfig (joinSegments cls.segments)).specializations := by
    unfold generate_class
    dsimp only []
    rw [if_neg (by simp [hnoign]), htm]
    dsimp only []
    rw [if_neg (by simp [hne])]
  obtain ⟨h1, h2⟩ := generate_class_specializations_arity_abort policy cls
    (sub.getClassConfig (joinSegments cls.segments)) template_names
    (sub.getClassConfig (joinSegments cls.segments)).specializations hbad
  constructor
  · rw [hred]; exact h1
  · intro hok
    rw [hred]
    exact h2 hok

/-- A templated class with one template parameter and no members. -/
def badSpecClass : ClassScope := .mk [⟨"vpTpl", false⟩] (some ["T"]) [] [] [] [] [] []

/-- A configuration declaring one specialization with an empty argument list. -/
def badSpecConfig : ClassConfig := ⟨false, false, true, none, [⟨"TplDouble", []⟩]⟩

def badSpecSubmodule : SubmoduleModel := ⟨"core2", [], fun _ => false, fun _ => badSpecConfig⟩

/-- Witness for `generate_class_specialization_arity_assertion` on a one-parameter
template class with a zero-argument declared specialization. -/
theorem generate_class_specialization_arity_assertion_witness :
    (∃ e, generate_class badSpecSubmodule acceptAllPolicy badSpecClass = .error e) ∧
    ((∀ sp ∈ (badSpecSubmodule.getClassConfig (joinSegments badSpecClass.segments)).specializations,
        (["T"] : List String).length = sp.arguments.length →
        ∃ out, generate_class_with_potiental_specialization acceptAllPolicy badSpecClass
          (badSpecSubmodule.getClassConfig (joinSegments badSpecClass.segments)) sp.pythonName
          ((["T"] : List String).zip sp.arguments) = .ok out) →
      generate_class badSpecSubmodule acceptAllPolicy badSpecClass =
        .error .assertionError) :=
  generate_class_specialization_arity_assertion badSpecSubmodule acceptAllPolicy
    badSpecClass ["T"] rfl rfl ⟨⟨"TplDouble", []⟩, List.mem_singleton.mpr rfl, by decide⟩

/-- Claim C10 as stated: a templated, non-ignored class with a declared
specialization of the wrong arity makes `generate_class` abort with the assertion
error. -/
def claimC10_prop (sub : SubmoduleModel) (policy : ClassMethod → Option MethodConfig)
    (cls : ClassScope) (template_names : List String) : Prop :=
  cls.template = some template_names →
  sub.shouldIgnore (joinSegments cls.segments) = false →
  (∃ sp ∈ (sub.getClassConfig (joinSegments cls.segments)).specializations,
    template_names.length ≠ sp.arguments.length) →
  generate_class sub policy cls = .error .assertionError

/-- A templated class whose members conflict (static and instance `compute`). -/
def preemptClass : ClassScope :=
  .mk [⟨"vpPre", false⟩] (some ["T"]) []
    [⟨"compute", false, false, true, false, ["int"], none, "void"⟩,
     ⟨"compute", false, false, false, false, ["double"], none, "void"⟩]
    [] [] [] []

/-- A configuration listing a well-formed specialization before a wrong-arity
one. -/
def preemptConfig : ClassConfig :=
  ⟨false, false, true, none, [⟨"Good", ["double"]⟩, ⟨"Bad", []⟩]⟩

def preemptSubmodule : SubmoduleModel := ⟨"core3", [], fun _ => false, fun _ => preemptConfig⟩

/-- C10 counterexample: with a wrong-arity specialization listed *after* a
well-formed one whose own emission hits the overload-conflict `RuntimeError`
(line 368), the run aborts with `RuntimeError` before the line 397 `assert` is
reached — so "aborts with an assertion error" does not hold verbatim, though the
run still aborts fatally. -/
theorem claimC10_counterexample :
    ¬ claimC10_prop preemptSubmodule acceptAllPolicy preemptClass ["T"] := by
  intro hcl
  have h := hcl rfl rfl ⟨⟨"Bad", []⟩, by decide, by decide⟩
  have heval : generate_class preemptSubmodule acceptAllPolicy preemptClass =
      .error .runtimeError := rfl
  rw [heval] at h
  exact absurd h (by simp)
